import Mathlib

/-!
# Verification of the erigon execution-layer core (receipts, hash builder, forkchoice)

Shallow embedding of the receipt derivation (`core/types` receipt code.
`core/state_processor.go`), the Merkle-Patricia-Trie hash builder
(`turbo/trie/hashbuilder.go`) and the forkchoice engine
(`turbo/execution/eth1/forkchoice.go`), together with proofs of the
specification claims about them.

Conventions:
* Bytes are modelled as `List Nat` (each entry a byte value).
* Go `uint64` arithmetic is modelled on `Nat` with explicit `% 2^64`
  where the Go code can overflow.
* Keccak-256 is kept abstract: functions that hash are parametrised by
  `keccak : List Nat → List Nat` (the `crypto` package is not part of the
  sampled source).
* Stacks are Lean lists whose head is the top of the stack.
-/

set_option maxRecDepth 10000
set_option linter.unnecessarySeqFocus false

abbrev Bytes := List Nat

/-- `2^64`, the modulus of Go `uint64` arithmetic. -/
def U64 : Nat := 2 ^ 64

/-- Go `uint64` subtraction `a - b` (wraps around on underflow). -/
def sub64 (a b : Nat) : Nat := (a + U64 - b % U64) % U64

/-- Go `uint64` addition `a + b` (wraps around on overflow);
models `*usedGas += result.UsedGas` in `applyTransaction`. -/
def add64 (a b : Nat) : Nat := (a + b) % U64

/-! ## RLP encoding

Modelled from the spec: the repository's `rlp` and `turbo/rlphacks`
packages are not part of the sampled source (only their callers are), so
the canonical Ethereum RLP rules — "the RLP framing rules that make the
root bit-exact with the protocol specification" (spec §1, §4.2) — are
embedded here directly. -/

/-- Minimal big-endian byte representation, fuel-recursive so that the
kernel can evaluate it (`beBytes n` unfolds to
`beBytes (n / 256) ++ [n % 256]` for non-zero `n`, empty for `0`). -/
def beBytesGo : Nat → Nat → Bytes
  | _, 0 => []
  | 0, _ + 1 => []
  | fuel + 1, n + 1 => beBytesGo fuel ((n + 1) / 256) ++ [(n + 1) % 256]

/-- Minimal big-endian byte representation of `n` (empty for `0`). -/
def beBytes (n : Nat) : Bytes := beBytesGo n n

/-- Big-endian interpretation of a byte string. -/
def fromBe (bs : Bytes) : Nat := bs.foldl (fun acc b => acc * 256 + b) 0

/-- RLP header for a byte string of payload length `n`. -/
def rlpStrHdr (n : Nat) : Bytes :=
  if n < 56 then [0x80 + n] else (0xb7 + (beBytes n).length) :: beBytes n

/-- RLP encoding of a byte string. -/
def rlpString (payload : Bytes) : Bytes :=
  match payload with
  | [b] => if b < 0x80 then [b] else rlpStrHdr 1 ++ [b]
  | _ => rlpStrHdr payload.length ++ payload

/-- RLP header for a list whose encoded payload has length `n`.
This is also what `rlphacks.GenerateStructLen` produces in
`turbo/trie/hashbuilder.go`. -/
def rlpListHdr (n : Nat) : Bytes :=
  if n < 56 then [0xc0 + n] else (0xf7 + (beBytes n).length) :: beBytes n

/-- RLP encoding of a list given its already-encoded payload. -/
def rlpListOf (payload : Bytes) : Bytes := rlpListHdr payload.length ++ payload

/-- RLP encoding of a `uint64` (big-endian, minimal, `0` is the empty string). -/
def rlpUint (n : Nat) : Bytes := rlpString (beBytes n)

/-! ## Receipts and logs (`core/types`, `src/unnamed/part_001`) -/

/-- A log entry. Consensus fields (`address`, `topics`, `data`) are stored
on disk; the remaining fields are derived per block
(`Receipts.DeriveFields`). The `Log` type itself is defined in a file of
`core/types` outside the sample; the fields are those read and written by
the sampled code. -/
structure Log where
  address : Bytes
  topics : List Bytes
  data : Bytes
  blockNumber : Nat := 0
  txHash : Bytes := []
  txIndex : Nat := 0
  blockHash : Bytes := []
  index : Nat := 0
  deriving Repr, DecidableEq

/-- `types.Receipt` restricted to the fields the sampled code reads or
writes (the Optimism L1-fee fields, set from the absent `opstack`
package, are not modelled). -/
structure Receipt where
  typ : Nat := 0
  postState : Bytes := []
  status : Nat := 0
  cumulativeGasUsed : Nat := 0
  logs : List Log := []
  txHash : Bytes := []
  contractAddress : Bytes := []
  gasUsed : Nat := 0
  depositNonce : Option Nat := none
  blockHash : Bytes := []
  blockNumber : Nat := 0
  transactionIndex : Nat := 0
  depositReceiptVersion : Option Nat := none
  deriving Repr, DecidableEq

/-- `ReceiptStatusFailed`. -/
def ReceiptStatusFailed : Nat := 0

/-- `ReceiptStatusSuccessful`. -/
def ReceiptStatusSuccessful : Nat := 1

/-- `receiptStatusFailedRLP = []byte{}`. -/
def receiptStatusFailedRLP : Bytes := []

/-- `receiptStatusSuccessfulRLP = []byte{0x01}`. -/
def receiptStatusSuccessfulRLP : Bytes := [0x01]

/-- `(*Receipt).statusEncoding`. -/
def Receipt.statusEncoding (r : Receipt) : Bytes :=
  if r.postState.length = 0 then
    if r.status = ReceiptStatusFailed then receiptStatusFailedRLP
    else receiptStatusSuccessfulRLP
  else r.postState

/-- `(*Receipt).setStatus`: interpret a stored `PostStateOrStatus` blob,
writing into receipt `r`. -/
def Receipt.setStatus (r : Receipt) (postStateOrStatus : Bytes) : Except String Receipt :=
  if postStateOrStatus = receiptStatusSuccessfulRLP then
    .ok { r with status := ReceiptStatusSuccessful }
  else if postStateOrStatus = receiptStatusFailedRLP then
    .ok { r with status := ReceiptStatusFailed }
  else if postStateOrStatus.length = 32 then
    .ok { r with postState := postStateOrStatus }
  else .error "invalid receipt status"

/-- The part of `types.Transaction` consumed by `Receipts.DeriveFields`
and `applyTransaction`: type, `GetTo`, `GetNonce` and the transaction
hash (`Hash()` is memoised on the transaction, modelled as a field). -/
structure Transaction where
  typ : Nat := 0
  toAddr : Option Bytes := none
  nonce : Nat := 0
  txHash : Bytes := []
  deriving Repr, DecidableEq

/-- `crypto.CreateAddress`. Modelled from the spec: the `crypto` package is
not part of the sampled source; the spec (§4.4) says the deployed contract
address is "computed deterministically from (sender, nonce)", which is the
protocol rule `keccak256(rlp([sender, nonce]))[12:]`. -/
def CreateAddress (keccak : Bytes → Bytes) (sender : Bytes) (nonce : Nat) : Bytes :=
  (keccak (rlpListOf (rlpString sender ++ rlpUint nonce))).drop 12

/-- Derived-field assignment for the logs of the `i`-th receipt inside
`Receipts.DeriveFields`: `logIndex` is unique within the block. -/
def deriveLogs (number : Nat) (blockHash txHash : Bytes) (txIdx : Nat) :
    Nat → List Log → List Log
  | _, [] => []
  | logIndex, l :: ls =>
      { l with blockNumber := number, blockHash := blockHash, txHash := txHash,
               txIndex := txIdx, index := logIndex } ::
        deriveLogs number blockHash txHash txIdx (logIndex + 1) ls

/-- The per-receipt loop of `Receipts.DeriveFields` (`src/unnamed/part_001`).
`i` is the transaction index, `logIndex` the running block-wide log index
and `prevCum` the previous receipt's `CumulativeGasUsed`
(`r[i-1].CumulativeGasUsed`; `0` is never consulted at `i = 0`). -/
def deriveFieldsGo (keccak : Bytes → Bytes) (blockHash : Bytes) (number : Nat) :
    Nat → Nat → Nat → List Transaction → List Bytes → List Receipt → List Receipt
  | _, _, _, _, _, [] => []
  | _, _, _, _, [], _ :: _ => []
  | _, _, _, [], _ :: _, _ :: _ => []
  | i, logIndex, prevCum, tx :: txs, sender :: senders, r :: rs =>
      let contractAddress :=
        if tx.toAddr = none then
          CreateAddress keccak sender (r.depositNonce.getD tx.nonce)
        else r.contractAddress
      let gasUsed :=
        if i = 0 then r.cumulativeGasUsed else sub64 r.cumulativeGasUsed prevCum
      { r with typ := tx.typ, txHash := tx.txHash, blockHash := blockHash,
               blockNumber := number, transactionIndex := i,
               contractAddress := contractAddress, gasUsed := gasUsed,
               logs := deriveLogs number blockHash tx.txHash i logIndex r.logs } ::
        deriveFieldsGo keccak blockHash number (i + 1) (logIndex + r.logs.length)
          r.cumulativeGasUsed txs senders rs

/-- `Receipts.DeriveFields`. The trailing Optimism-Bedrock section only
errors out (via `opstack.ExtractL1GasParams`, absent from the sample) or
sets L1-fee fields that are outside this model; it is represented by the
`isOptimismBedrock`/`l1ParamsOk` parameters. -/
def Receipts.DeriveFields (keccak : Bytes → Bytes) (isOptimismBedrock l1ParamsOk : Bool)
    (blockHash : Bytes) (number : Nat) (txs : List Transaction) (senders : List Bytes)
    (rs : List Receipt) : Except String (List Receipt) :=
  if txs.length ≠ rs.length then
    .error "transaction and receipt count mismatch"
  else if senders.length ≠ txs.length then
    .error "transaction and senders count mismatch"
  else if isOptimismBedrock ∧ 2 ≤ txs.length ∧ l1ParamsOk = false then
    .error "ExtractL1GasParams"
  else
    .ok (deriveFieldsGo keccak blockHash number 0 0 0 txs senders rs)

/-- Cumulative gas accumulation across a block: `applyTransaction`
(`core/state_processor.go`) executes `*usedGas += result.UsedGas` and then
stores `CumulativeGasUsed: *usedGas` into the `i`-th receipt. Given the
per-transaction gas amounts, this is the list of the receipts'
`CumulativeGasUsed` fields. -/
def blockCumulatives (gasUseds : List Nat) : List Nat :=
  go 0 gasUseds
where
  go (acc : Nat) : List Nat → List Nat
    | [] => []
    | g :: gs => let acc' := add64 acc g; acc' :: go acc' gs

/-- Spec-side first differences: `gasUsed[i] = cumulativeGasUsed[i] -
cumulativeGasUsed[i-1]` with `cumulativeGasUsed[-1] = 0` (truncated `Nat`
subtraction). -/
def specDeltas (cs : List Nat) : List Nat :=
  List.zipWith (fun a b => a - b) cs (0 :: cs)

/-! ## The Hash Builder (`turbo/trie/hashbuilder.go`)

The hash stack is a sequence of 33-byte slots (`hashStackStride = 33`):
either one RLP-prefix byte `0x80+32` followed by a 32-byte Keccak digest,
or the raw RLP encoding of a node shorter than 32 bytes (an embedded
node; the remaining buffer bytes are stale and never read, so the slot is
modelled by its meaningful content only). The node stack holds `node`
values, with Go's `nil` entries modelled as `none`. The `ref` hash caches
stored inside nodes, and the tracing/proof-stack diagnostics, are not
modelled. -/

/-- One 33-byte slot of `hb.hashStack`. -/
inductive HashSlot where
  | hashed (digest : Bytes)
  | embedded (rlpBytes : Bytes)
  deriving Repr, DecidableEq

/-- The `node` values held on `hb.nodeStack` (`shortNode`, `fullNode`,
`hashNode`, `valueNode`, `codeNode`); a `fullNode` has 17 children. -/
inductive TrieNode where
  | short (key : Bytes) (valNode : TrieNode)
  | full (children : List (Option TrieNode))
  | hashN (digest : Bytes)
  | valueN (v : Bytes)
  | codeN (c : Bytes)

/-- The Hash Builder state: the two parallel stacks (list head = stack top). -/
structure HashBuilder where
  hashStack : List HashSlot := []
  nodeStack : List (Option TrieNode) := []

/-- `hasTerm`: a nibble key carries the leaf terminator `16` at its end. -/
def hasTerm (key : Bytes) : Bool := key.getLast? = some 16

/-- `compactLen` as computed by `leafHashWithKeyVal` /
`accountLeafHashWithKey` / `extensionHash`. -/
def compactLen (key : Bytes) : Nat :=
  if hasTerm key then (key.length - 1) / 2 + 1 else key.length / 2 + 1

/-- The first compact-encoding byte `compact0` (hex-prefix flags plus the
first nibble for odd-length keys). -/
def compact0 (key : Bytes) : Nat :=
  if hasTerm key then
    if key.length % 2 = 0 then 0x30 + key.headD 0 else 0x20
  else
    if key.length % 2 = 1 then 0x10 + key.headD 0 else 0

/-- The starting nibble index `ni` (1 when `compact0` consumed a nibble). -/
def niStart (key : Bytes) : Nat :=
  if hasTerm key then
    if key.length % 2 = 0 then 1 else 0
  else
    if key.length % 2 = 1 then 1 else 0

/-- The nibble-pair bytes `key[ni]*16 + key[ni+1]` written by the
`for i := 1; i < compactLen; i++` loop (`count = compactLen - 1` pairs).
Indexing is via `getD` (the Go code never reads out of bounds on the
keys produced by the struct stream). -/
def nibblePairs (key : Bytes) : Nat → Nat → Bytes
  | _, 0 => []
  | ni, count + 1 => (key.getD ni 0 * 16 + key.getD (ni + 1) 0) :: nibblePairs key (ni + 2) count

/-- `hb.keyPrefix[:kp]`: one length byte `0x80 + compactLen` when the
compact key is longer than one byte, nothing otherwise. -/
def keyPfx (key : Bytes) : Bytes :=
  if 1 < compactLen key then [0x80 + compactLen key] else []

/-- The full RLP encoding of a leaf node that `completeLeafHash` feeds to
either the byte-array writer or the Keccak sponge: struct length header
(`rlphacks.GenerateStructLen`), key length byte (if any), compact-encoded
key, double-RLP-encoded value (`valDouble` stands for the bytes written by
`val.ToDoubleRLP`; `rlphacks` is outside the sampled source). -/
def leafNodeRlp (key valDouble : Bytes) : Bytes :=
  rlpListHdr ((keyPfx key).length + compactLen key + valDouble.length) ++ keyPfx key
    ++ (compact0 key :: nibblePairs key (niStart key) (compactLen key - 1)) ++ valDouble

/-- `completeLeafHash`: embed the node if `totalLen + pt <
common.HashLength` (`totalLen = kp + kl + val.DoubleRLPLen()`, `pt` the
struct-length byte count), hash it with Keccak-256 otherwise. -/
def completeLeafHash (keccak : Bytes → Bytes) (key valDouble : Bytes) : HashSlot :=
  let totalLen := (keyPfx key).length + compactLen key + valDouble.length
  let pt := (rlpListHdr totalLen).length
  if totalLen + pt < 32 then .embedded (leafNodeRlp key valDouble)
  else .hashed (keccak (leafNodeRlp key valDouble))

/-- `leafHashWithKeyVal`: push the leaf slot onto the hash stack, pushing a
`nil` node when the node stack fell behind. -/
def HashBuilder.leafHashWithKeyVal (keccak : Bytes → Bytes) (hb : HashBuilder)
    (key valDouble : Bytes) : HashBuilder :=
  let hashStack := completeLeafHash keccak key valDouble :: hb.hashStack
  { hashStack := hashStack
    nodeStack := if hb.nodeStack.length < hashStack.length then none :: hb.nodeStack
                 else hb.nodeStack }

/-- `leaf`: push the structural `shortNode` (`valRaw` is `val.RawBytes()`),
then the leaf hash. -/
def HashBuilder.leaf (keccak : Bytes → Bytes) (hb : HashBuilder) (length : Nat)
    (keyHex valRaw valDouble : Bytes) : HashBuilder :=
  let key := keyHex.drop (keyHex.length - length)
  HashBuilder.leafHashWithKeyVal keccak
    { hb with nodeStack := some (.short key (.valueN valRaw)) :: hb.nodeStack }
    key valDouble

/-- `accountLeafHashWithKey`: hash the account leaf (its value is the
already-RLP-encoded account, wrapped once more into the leaf's value
string — `rlphacks.RlpEncodedBytes(...).ToDoubleRLP`), pop `popped`
entries from both stacks, push the slot and a `nil` node. -/
def HashBuilder.accountLeafHashWithKey (keccak : Bytes → Bytes) (hb : HashBuilder)
    (key accRlp : Bytes) (popped : Nat) : HashBuilder :=
  { hashStack := completeLeafHash keccak key (rlpString accRlp) :: hb.hashStack.drop popped
    nodeStack := none :: hb.nodeStack.drop popped }

/-- `bits.OnesCount16`. -/
def popCount16 (set : Nat) : Nat := ((List.range 16).filter (fun d => set.testBit d)).length

/-- Bytes of one child slot as written into a branch node's RLP by
`branchHash`: 33 bytes (prefix plus digest) for a hash, the raw encoding
(`size+1` bytes, `size = b0 - rlp.EmptyListCode`) for an embedded node. -/
def slotRlpBytes : HashSlot → Bytes
  | .hashed d => (0x80 + 32) :: d
  | .embedded e => e

/-- The 32 hash bytes of a slot (`hashes[33*i+1 : 33*(i+1)]`); for an
embedded slot the Go buffer holds the encoding followed by stale bytes,
modelled by its meaningful part. -/
def slotChildHash : HashSlot → Bytes
  | .hashed d => d
  | .embedded e => e.drop 1

/-- `totalSize` in `branchHash`: 17 length-prefix bytes plus 32 bytes per
hashed child or `b0 - rlp.EmptyListCode` bytes per embedded child. -/
def branchTotalSize (slots : List HashSlot) : Nat :=
  17 + (slots.map fun s =>
    match s with
    | .hashed _ => 32
    | .embedded e => e.headD 0 - 0xc0).sum

/-- Payload of the 17-slot branch RLP: digits `0..16` in order, consuming
the popped slots in pop order on set bits and writing
`rlp.EmptyStringCode` (`0x80`) on clear bits (bit 16 of a `uint16` bitset
is never set, so slot 16 is always empty). -/
def branchPayload (set : Nat) : Nat → List HashSlot → Bytes
  | digit, slots =>
    if digit < 17 then
      if set.testBit digit then
        match slots with
        | [] => []
        | s :: rest => slotRlpBytes s ++ branchPayload set (digit + 1) rest
      else 0x80 :: branchPayload set (digit + 1) slots
    else []
  termination_by digit _ => 17 - digit

/-- The branch node RLP fed to Keccak by `branchHash` (`slots` in pop
order, i.e. `hashes[0]` first). -/
def branchNodeRlp (set : Nat) (slots : List HashSlot) : Bytes :=
  rlpListHdr (branchTotalSize slots) ++ branchPayload set 0 slots

/-- `fullNode` children built by `branch`: for each set digit take the next
node in pop order, substituting a `hashNode` with the slot's hash bytes for
a `nil` node; clear digits (and child 16) stay `nil`. -/
def branchChildren (set : Nat) : Nat → List (Option TrieNode) → List HashSlot →
    List (Option TrieNode)
  | digit, nodes, hashes =>
    if digit < 16 then
      if set.testBit digit then
        match nodes, hashes with
        | none :: ns, s :: hs =>
            some (.hashN (slotChildHash s)) :: branchChildren set (digit + 1) ns hs
        | some nd :: ns, _ :: hs =>
            some nd :: branchChildren set (digit + 1) ns hs
        | _, _ => List.replicate (17 - digit) none
      else none :: branchChildren set (digit + 1) nodes hashes
    else [none]
  termination_by digit _ _ => 17 - digit

/-- `branchHash`: checked pop of `popcount(set)` hash-stack slots, push of
the Keccak digest of the 17-slot branch RLP; when called on a node stack
that is now longer than the hash stack (stand-alone `branchHash` opcode),
the node stack is collapsed the same way with a `nil` top. -/
def HashBuilder.branchHash (keccak : Bytes → Bytes) (hb : HashBuilder) (set : Nat) :
    Except String HashBuilder :=
  let digits := popCount16 set
  if hb.hashStack.length < digits then
    .error "len(hb.hashStack) < hashStackStride*digits"
  else
    let popped := (hb.hashStack.take digits).reverse
    let hashStack := .hashed (keccak (branchNodeRlp set popped)) :: hb.hashStack.drop digits
    let nodeStack :=
      if hashStack.length < hb.nodeStack.length then none :: hb.nodeStack.drop digits
      else hb.nodeStack
    .ok { hashStack := hashStack, nodeStack := nodeStack }

/-- `branch`: checked pop of `popcount(set)` node-stack entries, push of the
assembled `fullNode`, then `branchHash`. (Go slices the hash stack before
`branchHash` runs its own length check; a hash stack shorter than the node
stack would panic there, which the model reports as the same checked
error.) -/
def HashBuilder.branch (keccak : Bytes → Bytes) (hb : HashBuilder) (set : Nat) :
    Except String HashBuilder :=
  let digits := popCount16 set
  if hb.nodeStack.length < digits then
    .error "len(hb.nodeStask) < digits"
  else
    let nodes := (hb.nodeStack.take digits).reverse
    let hashes := (hb.hashStack.take digits).reverse
    let f : TrieNode := .full (branchChildren set 0 nodes hashes)
    HashBuilder.branchHash keccak
      { hashStack := hb.hashStack, nodeStack := some f :: hb.nodeStack.drop digits } set

/-- The `hash(precomputedHash)` opcode: push the 32-byte hash and a `nil`
node. -/
def HashBuilder.hashOp (hb : HashBuilder) (h : Bytes) : HashBuilder :=
  { hashStack := .hashed h :: hb.hashStack, nodeStack := none :: hb.nodeStack }

/-- `emptyRoot()`: push the empty-trie root hash and a `nil` node
(`EmptyRoot` stands for the canonical constant). -/
def HashBuilder.emptyRootOp (hb : HashBuilder) (emptyRoot : Bytes) : HashBuilder :=
  { hashStack := .hashed emptyRoot :: hb.hashStack, nodeStack := none :: hb.nodeStack }

/-- `hasRoot`: the node stack is non-empty. -/
def HashBuilder.hasRoot (hb : HashBuilder) : Bool := 0 < hb.nodeStack.length

/-- `topHash`: bytes `[1:33]` of the top hash-stack slot (Go panics on an
empty stack; the model returns `[]` there, a state `RootHash` never
reaches thanks to the stack-synchronisation invariant). -/
def HashBuilder.topHash (hb : HashBuilder) : Bytes :=
  match hb.hashStack with
  | [] => []
  | s :: _ => slotChildHash s

/-- `rootHash`. -/
def HashBuilder.rootHash (hb : HashBuilder) : Bytes := hb.topHash

/-- `RootHash`: error out only when `hasRoot` fails, i.e. only on an empty
node stack. -/
def HashBuilder.RootHash (hb : HashBuilder) : Except String Bytes :=
  if !hb.hasRoot then .error "no root in the tree" else .ok hb.rootHash

/-! ## The forkchoice engine (`turbo/execution/eth1/forkchoice.go`)

Block hashes are opaque values modelled as `Nat`, with `0` standing for
the zero hash `libcommon.Hash{}`. The database transaction is modelled by
an explicit `ChainDB` value: `updateForkChoice` operates on a copy (`tx`)
and the committed database changes only when the code reaches
`tx.Commit()`; every other return path rolls the transaction back
(`defer tx.Rollback()`), leaving the committed `ChainDB` untouched.
The staged-sync pipeline (`executionPipeline.RunUnwind`/`Run`), header and
uncle verification and the canonical-mark writes driven by them are
outside the sampled source and are abstracted by the `runUnwindAndMark`
and `pipelineRun` parameters; the `rawdb` accessors are modelled as
`ChainDB` field lookups. -/

abbrev Hash := Nat

/-- A block header as consumed by the forkchoice engine. -/
structure Header where
  number : Nat
  parentHash : Hash
  deriving Repr, DecidableEq

/-- The database state visible to the forkchoice engine. -/
structure ChainDB where
  headerByHash : Hash → Option Header
  canonicalHash : Nat → Option Hash
  hasTd : Hash → Nat → Bool
  headBlockHash : Hash
  headHeaderHash : Hash
  forkchoiceHead : Hash
  forkchoiceSafe : Hash
  forkchoiceFinalized : Hash

/-- `rawdb.ReadHeaderNumber`. -/
def readHeaderNumber (db : ChainDB) (h : Hash) : Option Nat :=
  (db.headerByHash h).map (·.number)

/-- `EthereumExecutionModule.isCanonicalHash`: the header number resolves,
a total difficulty entry exists, and the canonical hash at that number is
the hash itself. -/
def isCanonicalHash (db : ChainDB) (h : Hash) : Bool :=
  match readHeaderNumber db h with
  | none => false
  | some n =>
      let expectedHash := db.canonicalHash n
      if !(db.hasTd h n) then false else expectedHash == some h

/-- The safe-hash half of `verifyForkchoiceHashes`; `none` models the Go
nil-pointer dereference of `*headNumber`/`*safeNumber` (unreachable from
the call sites, which have already resolved `blockHash`). -/
def verifySafeHash (db : ChainDB) (blockHash safeHash : Hash) : Option Bool :=
  if safeHash ≠ 0 ∧ safeHash ≠ blockHash then
    if !(isCanonicalHash db safeHash) then some false
    else
      match readHeaderNumber db blockHash, readHeaderNumber db safeHash with
      | some hn, some sn => if hn ≤ sn then some false else some true
      | _, _ => none
  else some true

/-- `verifyForkchoiceHashes`: a non-zero finalized (then safe) hash that is
not the head itself must be canonical with a block number strictly below
the head's. -/
def verifyForkchoiceHashes (db : ChainDB) (blockHash finalizedHash safeHash : Hash) :
    Option Bool :=
  if finalizedHash ≠ 0 ∧ finalizedHash ≠ blockHash then
    if !(isCanonicalHash db finalizedHash) then some false
    else
      match readHeaderNumber db blockHash, readHeaderNumber db finalizedHash with
      | some hn, some fn =>
          if hn ≤ fn then some false else verifySafeHash db blockHash safeHash
      | _, _ => none
  else verifySafeHash db blockHash safeHash

/-- `writeForkChoiceHashes` (within the transaction). -/
def writeForkChoiceHashes (tx : ChainDB) (blockHash safeHash finalizedHash : Hash) :
    ChainDB :=
  let tx1 := if finalizedHash ≠ 0 then { tx with forkchoiceFinalized := finalizedHash } else tx
  let tx2 := if safeHash ≠ 0 then { tx1 with forkchoiceSafe := safeHash } else tx1
  { tx2 with headBlockHash := blockHash, forkchoiceHead := blockHash }

/-- `rawdb.TruncateCanonicalChain`: drop the number-to-hash mapping from
`fromN` onward. -/
def truncateCanonicalChain (tx : ChainDB) (fromN : Nat) : ChainDB :=
  { tx with canonicalHash := fun m => if fromN ≤ m then none else tx.canonicalHash m }

/-- `rawdb.IsCanonicalHash` (hash-and-number form used by the backward
walk). -/
def isCanonicalAt (db : ChainDB) (h : Hash) (n : Nat) : Bool :=
  db.canonicalHash n == some h

/-- `execution.ExecutionStatus` values used by forkchoice. -/
inductive ExecutionStatus where
  | Success | Busy | InvalidForkchoice | BadBlock | MissingSegment
  deriving Repr, DecidableEq

/-- `execution.ForkChoiceReceipt`. -/
structure ForkChoiceReceipt where
  status : ExecutionStatus
  latestValidHash : Hash
  validationError : String := ""
  deriving Repr, DecidableEq

/-- What `updateForkChoice` sends on its outcome channel: either a receipt
(`sendForkchoiceReceiptWithoutWaiting`) or a raw error
(`sendForkchoiceErrorWithoutWaiting`). -/
inductive FcuOutcome where
  | receipt (r : ForkChoiceReceipt)
  | err (msg : String)
  deriving Repr, DecidableEq

/-- Result of the backward walk of `updateForkChoice` (lines 206-245). -/
inductive WalkOutcome where
  | found (newCanonicals : List (Hash × Nat)) (unwindTo : Nat)
  | missingParent
  | fuelExhausted
  deriving Repr, DecidableEq

/-- The `for !isCanonicalHash && !unwindingToCanonical` loop: collect
non-canonical ancestors until the parent is canonical (the join point,
`unwindToNumber = currentParentNumber`), reporting a missing parent header
as `missingParent`. Go's loop terminates because header numbers decrease;
the model carries explicit fuel. -/
def walkBack (db : ChainDB) : Nat → Hash → Nat → List (Hash × Nat) → WalkOutcome
  | fuel, currentParentHash, currentParentNumber, newCanonicals =>
    if isCanonicalAt db currentParentHash currentParentNumber then
      .found newCanonicals currentParentNumber
    else
      match fuel with
      | 0 => .fuelExhausted
      | fuel + 1 =>
          match db.headerByHash currentParentHash with
          | none => .missingParent
          | some hdr =>
              walkBack db fuel hdr.parentHash (hdr.number - 1)
                (newCanonicals ++ [(currentParentHash, currentParentNumber)])

/-- The unwind-and-replay tail of `updateForkChoice` (lines 206-412),
entered once `blockHash` needs to become canonical. `db` is the committed
state restored on rollback; `tx` is the in-flight transaction. On the
success path the code first runs `tx.Commit()` (committing the truncated
canonical state) and only then runs `e.hook.AfterRun` (read-only, on a
fresh view) and `executionPipeline.RunPrune` (inside `db.Update`, which
commits the prune changes): a failure of either sends a raw error to the
caller while the forkchoice commit persists. `hookAfterRun` and
`runPrune` model those two post-commit steps. -/
def updateForkChoiceHeavy (db : ChainDB) (walkFuel : Nat)
    (runUnwindAndMark : ChainDB → List (Hash × Nat) → Nat → Except String ChainDB)
    (pipelineRun : ChainDB → Except String ChainDB)
    (hookAfterRun : ChainDB → Except String Unit)
    (runPrune : ChainDB → Except String ChainDB)
    (blockHash safeHash finalizedHash : Hash) (fcuHeader : Header)
    (unwindingToCanonical : Bool) (tx : ChainDB) : FcuOutcome × ChainDB :=
  let newCanonicals0 : List (Hash × Nat) :=
    if !unwindingToCanonical then [(blockHash, fcuHeader.number)] else []
  match (if unwindingToCanonical then WalkOutcome.found [] fcuHeader.number
         else walkBack tx walkFuel fcuHeader.parentHash (fcuHeader.number - 1)
                newCanonicals0) with
  | .missingParent => (.receipt ⟨.MissingSegment, 0, ""⟩, db)
  | .fuelExhausted => (.err "updateForkChoice: backward walk out of fuel (model)", db)
  | .found newCanonicals unwindTo =>
      match runUnwindAndMark tx newCanonicals unwindTo with
      | .error e => (.err e, db)
      | .ok tx2 =>
          match pipelineRun { tx2 with headHeaderHash := blockHash } with
          | .error e => (.err ("updateForkChoice: " ++ e), db)
          | .ok tx4 =>
              let headHash := tx4.headBlockHash
              let tx5 := writeForkChoiceHashes tx4 blockHash safeHash finalizedHash
              if headHash ≠ blockHash then
                (.receipt ⟨.BadBlock, headHash, "headHash and blockHash mismatch"⟩, db)
              else
                match verifyForkchoiceHashes tx5 blockHash finalizedHash safeHash with
                | none => (.err "nil pointer dereference", db)
                | some false => (.receipt ⟨.InvalidForkchoice, 0, ""⟩, db)
                | some true =>
                    match readHeaderNumber tx4 headHash with
                    | none => (.err "nil pointer dereference", db)
                    | some hn =>
                        let committed := truncateCanonicalChain tx5 (hn + 1)
                        match hookAfterRun committed with
                        | .error e => (.err e, committed)
                        | .ok _ =>
                            match runPrune committed with
                            | .error e => (.err ("updateForkChoice: " ++ e), committed)
                            | .ok pruned => (.receipt ⟨.Success, headHash, ""⟩, pruned)

/-- `updateForkChoice` (the goroutine body, lines 119-413).
`semaphoreFree` is the result of `e.semaphore.TryAcquire(1)`,
`isOptimism` is `e.config.IsOptimism()`. The pair component is the
committed database after the call: `tx.Commit()` is reached only at the
end of the success path (after the head comparison and the ancestry
check); every other return path rolls the transaction back, and the
post-commit `hookAfterRun`/`runPrune` steps can change the committed
state further or fail with a raw error after the commit. -/
def updateForkChoice (db : ChainDB) (semaphoreFree isOptimism : Bool) (walkFuel : Nat)
    (runUnwindAndMark : ChainDB → List (Hash × Nat) → Nat → Except String ChainDB)
    (pipelineRun : ChainDB → Except String ChainDB)
    (hookAfterRun : ChainDB → Except String Unit)
    (runPrune : ChainDB → Except String ChainDB)
    (blockHash safeHash finalizedHash : Hash) : FcuOutcome × ChainDB :=
  if !semaphoreFree then
    if isOptimism then (.err "cannot update forkchoice. execution service is busy", db)
    else (.receipt ⟨.Busy, 0, ""⟩, db)
  else
    match db.headerByHash blockHash with
    | none => (.err "forkchoice: block not found or was marked invalid", db)
    | some fcuHeader =>
        let canonicalH := db.canonicalHash fcuHeader.number
        let unwindingToCanonical :=
          isOptimism && (blockHash != db.headBlockHash) && (canonicalH == some blockHash)
        if canonicalH = some blockHash then
          let tx1 := writeForkChoiceHashes db blockHash safeHash finalizedHash
          match verifyForkchoiceHashes tx1 blockHash finalizedHash safeHash with
          | none => (.err "nil pointer dereference", db)
          | some false => (.receipt ⟨.InvalidForkchoice, 0, ""⟩, db)
          | some true =>
              if !unwindingToCanonical then (.receipt ⟨.Success, blockHash, ""⟩, db)
              else
                updateForkChoiceHeavy db walkFuel runUnwindAndMark pipelineRun
                  hookAfterRun runPrune blockHash safeHash finalizedHash fcuHeader
                  unwindingToCanonical tx1
        else
          updateForkChoiceHeavy db walkFuel runUnwindAndMark pipelineRun
            hookAfterRun runPrune blockHash safeHash finalizedHash fcuHeader
            unwindingToCanonical db

/-- The commit discipline of `updateForkChoice`: after a call, the
committed database either is the original one (every early-return path
runs `tx.Rollback()`), or the call reached `tx.Commit()` — forward replay
fully succeeded leaving head `bh` and the safe/finalized ancestry check
passed — and the committed state is the truncated post-replay transaction,
possibly further changed by a successful post-commit `RunPrune`. -/
def CommittedOnlyAfterReplay (pr₀ : ChainDB → Except String ChainDB)
    (prune₀ : ChainDB → Except String ChainDB)
    (bh sh fh : Hash) (db₀ db' : ChainDB) : Prop :=
  db' = db₀ ∨
  ∃ (tx2 tx4 : ChainDB) (hn : Nat),
    pr₀ { tx2 with headHeaderHash := bh } = .ok tx4 ∧
    tx4.headBlockHash = bh ∧
    verifyForkchoiceHashes (writeForkChoiceHashes tx4 bh sh fh) bh fh sh = some true ∧
    readHeaderNumber tx4 bh = some hn ∧
    (db' = truncateCanonicalChain (writeForkChoiceHashes tx4 bh sh fh) (hn + 1) ∨
     prune₀ (truncateCanonicalChain (writeForkChoiceHashes tx4 bh sh fh) (hn + 1))
       = .ok db')

/-- The parent of a block, read from its header. -/
def parentAt (db : ChainDB) (h : Hash) : Option Hash :=
  (db.headerByHash h).map (·.parentHash)

/-- `k`-fold parent iteration. -/
def iterParent (db : ChainDB) : Nat → Hash → Option Hash
  | 0, h => some h
  | k + 1, h =>
      match parentAt db h with
      | none => none
      | some p => iterParent db k p

/-- Spec-side ancestry: `a` is a proper ancestor of `h` along the
parent-hash links. -/
def ProperAncestor (db : ChainDB) (a h : Hash) : Prop :=
  ∃ k, 0 < k ∧ iterParent db k h = some a

/-- Well-formedness of the canonical number-to-hash mapping: canonical
entries resolve to headers carrying their number and a total-difficulty
entry, and the hash canonical at `n` is the parent of the one canonical at
`n + 1` (the "canonical chain pointer" invariants of the spec's data
model). -/
structure CanonWF (db : ChainDB) : Prop where
  number_eq : ∀ n h, db.canonicalHash n = some h →
    ∃ hdr, db.headerByHash h = some hdr ∧ hdr.number = n
  td : ∀ n h, db.canonicalHash n = some h → db.hasTd h n = true
  parent_canonical : ∀ n h hdr, db.canonicalHash (n + 1) = some h →
    db.headerByHash h = some hdr → db.canonicalHash n = some hdr.parentHash

/-! ## Receipt storage encoding (`ReceiptForStorage`, `src/unnamed/part_001`)

`EncodeRLP` feeds a `storedReceiptRLP` value to the generic `rlp` encoder;
`DecodeRLP` first tries `decodeStoredReceiptRLP` and falls back to the
legacy v3/v4 decoders. The `rlp` package and the `LogForStorage`
encoding (`rlpStorageLog` in `core/types/log.go`) are outside the sampled
source and are modelled from the spec's canonical RLP rules: a struct is a
list of its fields in order; the two `rlp:"optional"` tail fields are
emitted up to the last non-nil one (a nil pointer before it encoding as
zero) and are left nil by the decoder when the list ends early. -/

/-- The storage projection of a log (`rlpStorageLog`): address, topics,
data; the block-derived fields are not stored. -/
def Log.stored (l : Log) : Log :=
  { address := l.address, topics := l.topics, data := l.data }

/-- `LogForStorage.EncodeRLP`: RLP list of address, topic list, data. -/
def LogForStorage.EncodeRLP (l : Log) : Bytes :=
  rlpListOf (rlpString l.address ++ rlpListOf ((l.topics.map rlpString).flatten)
    ++ rlpString l.data)

/-- The optional `DepositNonce`/`DepositReceiptVersion` tail of a
`storedReceiptRLP`: fields up to the last non-nil one are written, a nil
`DepositNonce` before a non-nil version encoding as `0`. -/
def storedOptTail (r : Receipt) : Bytes :=
  match r.depositReceiptVersion with
  | some v => rlpUint (r.depositNonce.getD 0) ++ rlpUint v
  | none =>
      match r.depositNonce with
      | some n => rlpUint n
      | none => []

/-- The list payload of a `storedReceiptRLP`. -/
def storedReceiptPayload (r : Receipt) : Bytes :=
  rlpString r.statusEncoding ++ rlpUint r.cumulativeGasUsed
    ++ rlpListOf ((r.logs.map LogForStorage.EncodeRLP).flatten) ++ storedOptTail r

/-- `ReceiptForStorage.EncodeRLP`. -/
def ReceiptForStorage.EncodeRLP (r : Receipt) : Bytes :=
  rlpListOf (storedReceiptPayload r)

/-- Parse one RLP byte-string item, returning its payload and the rest of
the input; enforces canonical encodings (single bytes below `0x80` stand
for themselves, no leading zero in a long length, long form only from
56 bytes). -/
def parseRlpStr : Bytes → Option (Bytes × Bytes)
  | [] => none
  | b :: rest =>
      if b < 0x80 then some ([b], rest)
      else if b < 0xb8 then
        let n := b - 0x80
        if n = 1 ∧ rest.headD 0 < 0x80 then none
        else if rest.length < n then none
        else some (rest.take n, rest.drop n)
      else if b < 0xc0 then
        let ll := b - 0xb7
        if rest.length < ll then none
        else
          let n := fromBe (rest.take ll)
          if (rest.take ll).headD 0 = 0 ∨ n < 56 then none
          else if (rest.drop ll).length < n then none
          else some ((rest.drop ll).take n, (rest.drop ll).drop n)
      else none

/-- Parse one RLP list item, returning its payload and the rest of the
input. -/
def parseRlpList : Bytes → Option (Bytes × Bytes)
  | [] => none
  | b :: rest =>
      if b < 0xc0 then none
      else if b < 0xf8 then
        let n := b - 0xc0
        if rest.length < n then none else some (rest.take n, rest.drop n)
      else
        let ll := b - 0xf7
        if rest.length < ll then none
        else
          let n := fromBe (rest.take ll)
          if (rest.take ll).headD 0 = 0 ∨ n < 56 then none
          else if (rest.drop ll).length < n then none
          else some ((rest.drop ll).take n, (rest.drop ll).drop n)

/-- Parse a canonical RLP unsigned integer (at most 8 bytes, no leading
zero). -/
def parseRlpUint (bs : Bytes) : Option (Nat × Bytes) :=
  match parseRlpStr bs with
  | none => none
  | some (p, rest) =>
      if 8 < p.length then none
      else if p.headD 1 = 0 then none
      else some (fromBe p, rest)

/-- Parse the topics of a stored log (32-byte strings until the list
payload is exhausted); the fuel is the payload length. -/
def parseTopics : Nat → Bytes → Option (List Bytes)
  | _, [] => some []
  | 0, _ :: _ => none
  | fuel + 1, bs =>
      match parseRlpStr bs with
      | none => none
      | some (t, rest) =>
          if t.length = 32 then (parseTopics fuel rest).map (t :: ·)
          else none

/-- Decode one stored log (20-byte address, topics, data). -/
def parseLog (bs : Bytes) : Option (Log × Bytes) :=
  match parseRlpList bs with
  | none => none
  | some (payload, rest) =>
      match parseRlpStr payload with
      | none => none
      | some (addr, p1) =>
          if addr.length ≠ 20 then none
          else
            match parseRlpList p1 with
            | none => none
            | some (topicsPayload, p2) =>
                match parseTopics topicsPayload.length topicsPayload with
                | none => none
                | some topics =>
                    match parseRlpStr p2 with
                    | none => none
                    | some (data, p3) =>
                        if p3 = [] then
                          some ({ address := addr, topics := topics, data := data }, rest)
                        else none

/-- Decode the stored-log list (until the list payload is exhausted); the
fuel is the payload length. -/
def parseLogList : Nat → Bytes → Option (List Log)
  | _, [] => some []
  | 0, _ :: _ => none
  | fuel + 1, bs =>
      match parseLog bs with
      | none => none
      | some (l, rest) => (parseLogList fuel rest).map (l :: ·)

/-- The optional `DepositNonce`/`DepositReceiptVersion` tail: fields left
`none` when the receipt list ends early. -/
def parseOptionalNonces (bs : Bytes) : Option (Option Nat × Option Nat) :=
  if bs = [] then some (none, none)
  else
    match parseRlpUint bs with
    | none => none
    | some (n, p4) =>
        if p4 = [] then some (some n, none)
        else
          match parseRlpUint p4 with
          | none => none
          | some (v, p5) => if p5 = [] then some (some n, some v) else none

/-- `decodeStoredReceiptRLP`: decode the current storage format into a
fresh receipt (`rlp.DecodeBytes` requires the input to be exactly one
value, and `setStatus` interprets the first field). -/
def decodeStoredReceiptRLP (blob : Bytes) : Option Receipt :=
  match parseRlpList blob with
  | none => none
  | some (payload, rest) =>
      if rest ≠ [] then none
      else
        match parseRlpStr payload with
        | none => none
        | some (pos, p1) =>
            match parseRlpUint p1 with
            | none => none
            | some (cum, p2) =>
                match parseRlpList p2 with
                | none => none
                | some (logsPayload, p3) =>
                    match parseLogList logsPayload.length logsPayload with
                    | none => none
                    | some logs =>
                        match parseOptionalNonces p3 with
                        | none => none
                        | some (dn, dv) =>
                            match Receipt.setStatus {} pos with
                            | .error _ => none
                            | .ok r0 =>
                                some { r0 with
                                        cumulativeGasUsed := cum
                                        logs := logs
                                        depositNonce := dn
                                        depositReceiptVersion := dv }

/-- `ReceiptForStorage.DecodeRLP`: try the current format first, falling
back to the legacy v3/v4 decoders (abstracted as `fallback`) only when it
fails. -/
def ReceiptForStorage.DecodeRLP (fallback : Bytes → Option Receipt) (blob : Bytes) :
    Option Receipt :=
  match decodeStoredReceiptRLP blob with
  | some r => some r
  | none => fallback blob

/-! ## Proofs about receipt gas accounting (C2) and contract addresses (C9) -/

theorem chain'_le_getLastD (cs : List Nat) :
    ∀ c, List.Chain' (· ≤ ·) (c :: cs) → c ≤ cs.getLastD c := by
  induction cs with
  | nil => intro c _; simp
  | cons d cs ih =>
      intro c h
      rw [List.chain'_cons] at h
      calc c ≤ d := h.1
        _ ≤ cs.getLastD d := ih d h.2
        _ = (d :: cs).getLastD c := by rw [List.getLastD_cons]

theorem sum_zipWith_sub (cs : List Nat) :
    ∀ b, List.Chain' (· ≤ ·) (b :: cs) →
      (List.zipWith (fun a b => a - b) cs (b :: cs)).sum = cs.getLastD b - b := by
  induction cs with
  | nil => intro b _; simp
  | cons c cs ih =>
      intro b h
      rw [List.chain'_cons] at h
      have hc : c ≤ cs.getLastD c := chain'_le_getLastD cs c h.2
      simp only [List.zipWith_cons_cons, List.sum_cons, List.getLastD_cons, ih c h.2]
      omega

theorem blockCumulatives_go_spec (gs : List Nat) :
    ∀ acc, acc + gs.sum < U64 →
      List.Chain' (· ≤ ·) (acc :: blockCumulatives.go acc gs) ∧
      ∀ c ∈ blockCumulatives.go acc gs, c < U64 := by
  induction gs with
  | nil =>
      intro acc _
      exact ⟨List.chain'_singleton acc, by simp [blockCumulatives.go]⟩
  | cons g gs ih =>
      intro acc hb
      simp only [List.sum_cons] at hb
      have hadd : add64 acc g = acc + g := by
        unfold add64
        exact Nat.mod_eq_of_lt (by omega)
      have ih' := ih (acc + g) (by omega)
      constructor
      · simp only [blockCumulatives.go, hadd, List.chain'_cons]
        exact ⟨Nat.le_add_right acc g, ih'.1⟩
      · simp only [blockCumulatives.go, hadd, List.mem_cons]
        rintro c (rfl | hmem)
        · omega
        · exact ih'.2 c hmem

theorem sub64_eq (a b : Nat) (h1 : b ≤ a) (h2 : a < U64) : sub64 a b = a - b := by
  unfold sub64
  rw [Nat.mod_eq_of_lt (lt_of_le_of_lt h1 h2)]
  have h3 : a + U64 - b = U64 + (a - b) := by omega
  rw [h3, Nat.add_mod_left]
  exact Nat.mod_eq_of_lt (by omega)

theorem deriveFieldsGo_gas_spec (keccak : Bytes → Bytes) (bh : Bytes) (n : Nat) :
    ∀ (txs : List Transaction) (ss : List Bytes) (rs : List Receipt) (i li pc : Nat),
      txs.length = rs.length → ss.length = txs.length →
      List.Chain' (· ≤ ·) (pc :: rs.map (·.cumulativeGasUsed)) →
      (∀ c ∈ rs.map (·.cumulativeGasUsed), c < U64) →
      (deriveFieldsGo keccak bh n i li pc txs ss rs).map (·.cumulativeGasUsed)
          = rs.map (·.cumulativeGasUsed) ∧
      (deriveFieldsGo keccak bh n i li pc txs ss rs).map (·.gasUsed)
          = List.zipWith (fun a b => a - b) (rs.map (·.cumulativeGasUsed))
              ((if i = 0 then 0 else pc) :: rs.map (·.cumulativeGasUsed)) := by
  intro txs
  induction txs with
  | nil =>
      intro ss rs i li pc hlen1 _ _ _
      have : rs = [] := List.eq_nil_of_length_eq_zero (by simpa using hlen1.symm)
      subst this
      simp [deriveFieldsGo]
  | cons tx txs ih =>
      intro ss rs i li pc hlen1 hlen2 hchain hlt
      cases rs with
      | nil => simp at hlen1
      | cons r rs =>
          cases ss with
          | nil => simp at hlen2
          | cons s ss =>
              simp only [List.map_cons, List.chain'_cons] at hchain
              have hrcum : r.cumulativeGasUsed < U64 := hlt _ (by simp)
              have ihc := ih ss rs (i + 1) (li + r.logs.length) r.cumulativeGasUsed
                (by simpa using hlen1) (by simpa using hlen2) (by simpa using hchain.2)
                (fun c hc => hlt c (by simp [hc]))
              refine ⟨?_, ?_⟩
              · simpa [deriveFieldsGo] using ihc.1
              · simp only [deriveFieldsGo, List.map_cons, List.zipWith_cons_cons]
                rw [ihc.2]
                simp only [Nat.add_one_ne_zero, if_false]
                congr 1
                by_cases hi : i = 0
                · simp [hi]
                · simp only [hi, if_false]
                  exact sub64_eq _ _ hchain.1 hrcum

/-- **C2**: for a block's receipt list produced by `applyTransaction`
(cumulative gas accumulated transaction by transaction, with total block
gas below `2^64`), `cumulativeGasUsed` is non-decreasing in transaction
index; `Receipts.DeriveFields` succeeds and afterwards every receipt
satisfies `gasUsed[i] = cumulativeGasUsed[i] - cumulativeGasUsed[i-1]`
(with `cumulativeGasUsed[-1] = 0`, so `gasUsed[0] = cumulativeGasUsed[0]`),
and the sum of `gasUsed` over all receipts equals the last receipt's
`cumulativeGasUsed`. -/
theorem c2_receipt_gas_invariant (keccak : Bytes → Bytes) (l1ParamsOk : Bool)
    (blockHash : Bytes) (number : Nat) (gasUseds : List Nat) (txs : List Transaction)
    (senders : List Bytes) (rs : List Receipt)
    (hcum : rs.map (·.cumulativeGasUsed) = blockCumulatives gasUseds)
    (hsum : gasUseds.sum < U64)
    (hlen1 : txs.length = rs.length) (hlen2 : senders.length = txs.length) :
    ∃ rs', Receipts.DeriveFields keccak false l1ParamsOk blockHash number txs senders rs
        = .ok rs'
      ∧ List.Chain' (· ≤ ·) (rs'.map (·.cumulativeGasUsed))
      ∧ rs'.map (·.gasUsed) = specDeltas (rs'.map (·.cumulativeGasUsed))
      ∧ (rs'.map (·.gasUsed)).sum = (rs'.map (·.cumulativeGasUsed)).getLastD 0 := by
  have hbc := blockCumulatives_go_spec gasUseds 0 (by omega)
  rw [← blockCumulatives] at hbc
  rw [← hcum] at hbc
  have hmain := deriveFieldsGo_gas_spec keccak blockHash number txs senders rs 0 0 0
    hlen1 hlen2 hbc.1 hbc.2
  refine ⟨deriveFieldsGo keccak blockHash number 0 0 0 txs senders rs, ?_, ?_, ?_, ?_⟩
  · unfold Receipts.DeriveFields
    simp [hlen1, hlen2]
  · rw [hmain.1]
    exact hbc.1.tail
  · rw [hmain.1, hmain.2]
    simp [specDeltas]
  · rw [hmain.1, hmain.2]
    simp only [reduceIte]
    rw [sum_zipWith_sub (rs.map (·.cumulativeGasUsed)) 0 hbc.1]
    simp

/-- Closed witness for `c2_receipt_gas_invariant`: the §8 scenario
(tx0 gasUsed 21000, tx1 gasUsed 30000 ⇒ cumulative 21000, 51000). -/
theorem c2_receipt_gas_invariant_witness :
    ∃ rs', Receipts.DeriveFields (fun _ => []) false true [] 0
        [{ nonce := 0 }, { nonce := 1 }] [[], []]
        [{ cumulativeGasUsed := 21000 }, { cumulativeGasUsed := 51000 }] = .ok rs'
      ∧ List.Chain' (· ≤ ·) (rs'.map (·.cumulativeGasUsed))
      ∧ rs'.map (·.gasUsed) = specDeltas (rs'.map (·.cumulativeGasUsed))
      ∧ (rs'.map (·.gasUsed)).sum = (rs'.map (·.cumulativeGasUsed)).getLastD 0 :=
  c2_receipt_gas_invariant (fun _ => []) true [] 0 [21000, 30000]
    [{ nonce := 0 }, { nonce := 1 }] [[], []]
    [{ cumulativeGasUsed := 21000 }, { cumulativeGasUsed := 51000 }]
    (by decide) (by decide) (by decide) (by decide)

theorem deriveFieldsGo_contract_spec (keccak : Bytes → Bytes) (bh : Bytes) (n : Nat) :
    ∀ (j : Nat) (txs : List Transaction) (ss : List Bytes) (rs : List Receipt)
      (i li pc : Nat) (tx : Transaction) (s : Bytes) (r : Receipt),
      txs[j]? = some tx → ss[j]? = some s → rs[j]? = some r → tx.toAddr = none →
      ((deriveFieldsGo keccak bh n i li pc txs ss rs)[j]?).map (·.contractAddress)
        = some (CreateAddress keccak s (r.depositNonce.getD tx.nonce)) := by
  intro j
  induction j with
  | zero =>
      intro txs ss rs i li pc tx s r htx hs hr hto
      cases txs with
      | nil => simp at htx
      | cons tx0 txs =>
          cases ss with
          | nil => simp at hs
          | cons s0 ss =>
              cases rs with
              | nil => simp at hr
              | cons r0 rs =>
                  simp only [List.getElem?_cons_zero, Option.some.injEq] at htx hs hr
                  subst htx; subst hs; subst hr
                  simp [deriveFieldsGo, hto]
  | succ j ih =>
      intro txs ss rs i li pc tx s r htx hs hr hto
      cases txs with
      | nil => simp at htx
      | cons tx0 txs =>
          cases ss with
          | nil => simp at hs
          | cons s0 ss =>
              cases rs with
              | nil => simp at hr
              | cons r0 rs =>
                  simp only [List.getElem?_cons_succ] at htx hs hr
                  simpa [deriveFieldsGo] using
                    ih txs ss rs (i + 1) (li + r0.logs.length) r0.cumulativeGasUsed
                      tx s r htx hs hr hto

/-- **C9**: for every contract-creation transaction (absent `To` field),
`Receipts.DeriveFields` stores in the receipt a `ContractAddress` computed
deterministically as `CreateAddress(sender, nonce)` — the nonce being the
receipt's `DepositNonce` when present and the transaction nonce otherwise
(`src/unnamed/part_001`, mirroring `crypto.CreateAddress(evm.TxContext().Origin,
nonce)` in `core/state_processor.go`). -/
theorem c9_contract_address (keccak : Bytes → Bytes) (isOptimismBedrock l1ParamsOk : Bool)
    (bh : Bytes) (n : Nat) (txs : List Transaction) (senders : List Bytes)
    (rs rs' : List Receipt) (j : Nat) (tx : Transaction) (s : Bytes) (r : Receipt)
    (hok : Receipts.DeriveFields keccak isOptimismBedrock l1ParamsOk bh n txs senders rs
      = .ok rs')
    (htx : txs[j]? = some tx) (hs : senders[j]? = some s) (hr : rs[j]? = some r)
    (hto : tx.toAddr = none) :
    (rs'[j]?).map (·.contractAddress)
      = some (CreateAddress keccak s (r.depositNonce.getD tx.nonce)) := by
  unfold Receipts.DeriveFields at hok
  split at hok
  · exact absurd hok (by simp)
  · split at hok
    · exact absurd hok (by simp)
    · split at hok
      · exact absurd hok (by simp)
      · simp only [Except.ok.injEq] at hok
        subst hok
        exact deriveFieldsGo_contract_spec keccak bh n j txs senders rs 0 0 0 tx s r
          htx hs hr hto

/-- Closed witness for `c9_contract_address`: a single creation transaction
with nonce 7 and a deposit nonce override of 9. -/
theorem c9_contract_address_witness :
    ∃ rs', Receipts.DeriveFields (fun b => b ++ b) false true [] 0
        [{ nonce := 7 }] [[1, 2]] [{ depositNonce := some 9 }] = .ok rs'
      ∧ (rs'[0]?).map (·.contractAddress)
          = some (CreateAddress (fun b => b ++ b) [1, 2] 9) :=
  ⟨deriveFieldsGo (fun b => b ++ b) [] 0 0 0 0
      [{ nonce := 7 }] [[1, 2]] [{ depositNonce := some 9 }],
   by rfl,
   c9_contract_address (fun b => b ++ b) false true [] 0 [{ nonce := 7 }] [[1, 2]]
     [{ depositNonce := some 9 }] _ 0 { nonce := 7 } [1, 2] { depositNonce := some 9 }
     (by rfl) (by rfl) (by rfl) (by rfl) (by rfl)⟩

/-! ## Proofs about the Hash Builder (C3, C4, C5) -/

theorem nibblePairs_length (key : Bytes) : ∀ ni count, (nibblePairs key ni count).length = count := by
  intro ni count
  induction count generalizing ni with
  | zero => rfl
  | succ c ih => simp [nibblePairs, ih]

theorem compactLen_pos (key : Bytes) : 1 ≤ compactLen key := by
  unfold compactLen
  split <;> omega

theorem leafNodeRlp_length (key valDouble : Bytes) :
    (leafNodeRlp key valDouble).length
      = ((keyPfx key).length + compactLen key + valDouble.length)
        + (rlpListHdr ((keyPfx key).length + compactLen key + valDouble.length)).length := by
  have h1 := compactLen_pos key
  unfold leafNodeRlp
  simp [List.length_append, nibblePairs_length]
  omega

theorem completeLeafHash_by_length (keccak : Bytes → Bytes) (key valDouble : Bytes) :
    completeLeafHash keccak key valDouble
      = if (leafNodeRlp key valDouble).length < 32 then .embedded (leafNodeRlp key valDouble)
        else .hashed (keccak (leafNodeRlp key valDouble)) := by
  simp only [completeLeafHash]
  rw [leafNodeRlp_length key valDouble]

/-- **C5**: for `leaf` and `accountLeaf` operations, the slot pushed onto
the hash stack is the Keccak-256 digest of the node's RLP encoding
(compact-encoded key plus double-RLP value) when that encoding's total
length is 32 bytes or more, and the raw encoding itself (an embedded
node) when the total encoding length is shorter than 32 bytes. -/
theorem c5_sub32_embedding (keccak : Bytes → Bytes) (hb : HashBuilder)
    (key valDouble accRlp : Bytes) (popped : Nat) :
    ((hb.leafHashWithKeyVal keccak key valDouble).hashStack.head?
        = some (if (leafNodeRlp key valDouble).length < 32
                then .embedded (leafNodeRlp key valDouble)
                else .hashed (keccak (leafNodeRlp key valDouble)))) ∧
    ((hb.accountLeafHashWithKey keccak key accRlp popped).hashStack.head?
        = some (if (leafNodeRlp key (rlpString accRlp)).length < 32
                then .embedded (leafNodeRlp key (rlpString accRlp))
                else .hashed (keccak (leafNodeRlp key (rlpString accRlp))))) := by
  refine ⟨?_, ?_⟩
  · simp [HashBuilder.leafHashWithKeyVal, completeLeafHash_by_length]
  · simp [HashBuilder.accountLeafHashWithKey, completeLeafHash_by_length]

/-- **C3 (amended)**: `RootHash` reports the checked error "no root in the
tree" exactly when the final stack depth is zero; any non-zero depth
(including depths greater than one) yields a root hash. -/
theorem c3_roothash_error_iff_empty (hb : HashBuilder) :
    hb.RootHash = (if hb.nodeStack.length = 0 then .error "no root in the tree"
                   else .ok hb.rootHash) := by
  unfold HashBuilder.RootHash HashBuilder.hasRoot
  rcases hb with ⟨hs, ns⟩
  cases ns <;> simp

/-- **C3 counterexample**: after a stream of two `hash` opcodes the stack
depth is 2 (not 1), yet `RootHash` silently returns the top hash instead
of reporting a logic error. -/
theorem c3_counterexample_depth_two :
    ((({ } : HashBuilder).hashOp (List.replicate 32 1)).hashOp
        (List.replicate 32 2)).nodeStack.length = 2 ∧
    ((({ } : HashBuilder).hashOp (List.replicate 32 1)).hashOp
        (List.replicate 32 2)).RootHash = .ok (List.replicate 32 2) := by
  constructor <;> rfl

/-- **C4**: `branch(set)` executed with `popcount(set)` or more entries on
the (synchronised) stacks pops exactly `popcount(set)` entries from both
the hash stack and the node stack and pushes exactly one entry onto each —
the Keccak digest of the 17-slot branch RLP with the set bits mapped in
pop order, and the assembled `fullNode` — for a net depth change of
`popcount(set) - 1` on each stack; with fewer entries it returns an error
instead of underflowing. -/
theorem c4_branch_pops (keccak : Bytes → Bytes) (hb : HashBuilder) (set : Nat)
    (hsync : hb.hashStack.length = hb.nodeStack.length) :
    (popCount16 set ≤ hb.nodeStack.length →
      hb.branch keccak set = .ok
        { hashStack :=
            .hashed (keccak (branchNodeRlp set ((hb.hashStack.take (popCount16 set)).reverse)))
              :: hb.hashStack.drop (popCount16 set)
          nodeStack :=
            some (.full (branchChildren set 0 ((hb.nodeStack.take (popCount16 set)).reverse)
                ((hb.hashStack.take (popCount16 set)).reverse)))
              :: hb.nodeStack.drop (popCount16 set) } ∧
      ∀ hb', hb.branch keccak set = .ok hb' →
        hb'.nodeStack.length + popCount16 set = hb.nodeStack.length + 1 ∧
        hb'.hashStack.length + popCount16 set = hb.hashStack.length + 1) ∧
    (hb.nodeStack.length < popCount16 set →
      hb.branch keccak set = .error "len(hb.nodeStask) < digits") := by
  rcases hb with ⟨hs, ns⟩
  simp only at hsync
  constructor
  · intro hge
    simp only at hge
    have h1 : ¬ (ns.length < popCount16 set) := by omega
    have h2 : ¬ (hs.length < popCount16 set) := by omega
    have hok : HashBuilder.branch keccak ⟨hs, ns⟩ set = .ok
        { hashStack :=
            .hashed (keccak (branchNodeRlp set ((hs.take (popCount16 set)).reverse)))
              :: hs.drop (popCount16 set)
          nodeStack :=
            some (.full (branchChildren set 0 ((ns.take (popCount16 set)).reverse)
                ((hs.take (popCount16 set)).reverse)))
              :: ns.drop (popCount16 set) } := by
      simp only [HashBuilder.branch, HashBuilder.branchHash, h1, h2, if_false,
        List.length_cons, List.length_drop]
      rw [if_neg (by omega)]
    refine ⟨hok, ?_⟩
    intro hb' hok'
    rw [hok] at hok'
    cases hok'
    simp only [List.length_cons, List.length_drop]
    omega
  · intro hlt
    simp only at hlt
    simp only [HashBuilder.branch]
    rw [if_pos (by exact hlt)]

/-- Closed witness for `c4_branch_pops`: two slots on each stack,
`set = 0b11` (popcount 2): both stacks end one entry shorter. -/
theorem c4_branch_pops_witness :
    (popCount16 3 ≤
        (HashBuilder.mk [.hashed [5], .hashed [6]] [none, none]).nodeStack.length →
      (HashBuilder.mk [.hashed [5], .hashed [6]] [none, none]).branch (fun _ => [9]) 3 = .ok
        { hashStack :=
            .hashed ((fun _ => [9]) (branchNodeRlp 3
                (((HashBuilder.mk [.hashed [5], .hashed [6]] [none, none]).hashStack.take
                  (popCount16 3)).reverse)))
              :: (HashBuilder.mk [.hashed [5], .hashed [6]] [none, none]).hashStack.drop
                  (popCount16 3)
          nodeStack :=
            some (.full (branchChildren 3 0
                (((HashBuilder.mk [.hashed [5], .hashed [6]] [none, none]).nodeStack.take
                    (popCount16 3)).reverse)
                (((HashBuilder.mk [.hashed [5], .hashed [6]] [none, none]).hashStack.take
                    (popCount16 3)).reverse)))
              :: (HashBuilder.mk [.hashed [5], .hashed [6]] [none, none]).nodeStack.drop
                  (popCount16 3) } ∧
      ∀ hb', (HashBuilder.mk [.hashed [5], .hashed [6]] [none, none]).branch (fun _ => [9]) 3
          = .ok hb' →
        hb'.nodeStack.length + popCount16 3
            = (HashBuilder.mk [.hashed [5], .hashed [6]] [none, none]).nodeStack.length + 1 ∧
        hb'.hashStack.length + popCount16 3
            = (HashBuilder.mk [.hashed [5], .hashed [6]] [none, none]).hashStack.length + 1) ∧
    ((HashBuilder.mk [.hashed [5], .hashed [6]] [none, none]).nodeStack.length < popCount16 3 →
      (HashBuilder.mk [.hashed [5], .hashed [6]] [none, none]).branch (fun _ => [9]) 3
        = .error "len(hb.nodeStask) < digits") :=
  c4_branch_pops (fun _ => [9]) (HashBuilder.mk [.hashed [5], .hashed [6]] [none, none]) 3 rfl

/-! ## Proofs about the forkchoice engine (C1, C6, C7, C8) -/

theorem canonical_iterParent (db : ChainDB) (wf : CanonWF db) :
    ∀ k n h a, db.canonicalHash (n + k) = some h → db.canonicalHash n = some a →
      iterParent db k h = some a := by
  intro k
  induction k with
  | zero =>
      intro n h a hh ha
      rw [Nat.add_zero] at hh
      rw [hh] at ha
      cases ha
      rfl
  | succ k ih =>
      intro n h a hh ha
      obtain ⟨hdr, hhdr, _⟩ := wf.number_eq _ _ hh
      have hh' : db.canonicalHash ((n + k) + 1) = some h := by rwa [Nat.add_succ] at hh
      have hpar := wf.parent_canonical (n + k) h hdr hh' hhdr
      simp only [iterParent, parentAt, hhdr, Option.map_some']
      exact ih n hdr.parentHash a hpar ha

theorem canonicalBelow_properAncestor (db : ChainDB) (wf : CanonWF db)
    (blockHash : Hash) (hdr : Header) (f : Hash) (fn : Nat)
    (hcanon : db.canonicalHash hdr.number = some blockHash)
    (hfc : db.canonicalHash fn = some f)
    (hlt : fn < hdr.number) : ProperAncestor db f blockHash := by
  refine ⟨hdr.number - fn, by omega, ?_⟩
  exact canonical_iterParent db wf (hdr.number - fn) fn blockHash f
    (by rw [show fn + (hdr.number - fn) = hdr.number from by omega]; exact hcanon) hfc

theorem isCanonicalHash_spec (db : ChainDB) (h : Hash)
    (hc : isCanonicalHash db h = true) :
    ∃ n, readHeaderNumber db h = some n ∧ db.canonicalHash n = some h := by
  unfold isCanonicalHash at hc
  split at hc
  · simp at hc
  · rename_i n heq
    split at hc
    · simp at hc
    · exact ⟨n, heq, by simpa using hc⟩

theorem verifySafe_false_of_not_ancestor (db : ChainDB) (wf : CanonWF db)
    (blockHash : Hash) (hdr : Header) (safeHash : Hash)
    (hhdr : db.headerByHash blockHash = some hdr)
    (hcanon : db.canonicalHash hdr.number = some blockHash)
    (h0 : safeHash ≠ 0) (hb : safeHash ≠ blockHash)
    (hnot : ¬ ProperAncestor db safeHash blockHash) :
    verifySafeHash db blockHash safeHash = some false := by
  unfold verifySafeHash
  rw [if_pos ⟨h0, hb⟩]
  cases hc : isCanonicalHash db safeHash with
  | false => simp
  | true =>
      obtain ⟨n, hrn, hcn⟩ := isCanonicalHash_spec db safeHash hc
      have hbn : readHeaderNumber db blockHash = some hdr.number := by
        simp [readHeaderNumber, hhdr]
      simp only [Bool.not_true, Bool.false_eq_true, if_false, hbn, hrn]
      have hge : hdr.number ≤ n := by
        by_contra hlt
        exact hnot (canonicalBelow_properAncestor db wf blockHash hdr safeHash n
          hcanon hcn (by omega))
      rw [if_pos hge]

theorem verify_false_of_not_ancestor (db : ChainDB) (wf : CanonWF db)
    (blockHash : Hash) (hdr : Header) (finalizedHash safeHash : Hash)
    (hhdr : db.headerByHash blockHash = some hdr)
    (hcanon : db.canonicalHash hdr.number = some blockHash)
    (hviol :
      (finalizedHash ≠ 0 ∧ finalizedHash ≠ blockHash ∧
        ¬ ProperAncestor db finalizedHash blockHash) ∨
      (safeHash ≠ 0 ∧ safeHash ≠ blockHash ∧
        ¬ ProperAncestor db safeHash blockHash)) :
    verifyForkchoiceHashes db blockHash finalizedHash safeHash = some false := by
  have hbn : readHeaderNumber db blockHash = some hdr.number := by
    simp [readHeaderNumber, hhdr]
  rcases hviol with ⟨h0, hb, hnot⟩ | ⟨h0, hb, hnot⟩
  · unfold verifyForkchoiceHashes
    rw [if_pos ⟨h0, hb⟩]
    cases hc : isCanonicalHash db finalizedHash with
    | false => simp
    | true =>
        obtain ⟨n, hrn, hcn⟩ := isCanonicalHash_spec db finalizedHash hc
        simp only [Bool.not_true, Bool.false_eq_true, if_false, hbn, hrn]
        have hge : hdr.number ≤ n := by
          by_contra hlt
          exact hnot (canonicalBelow_properAncestor db wf blockHash hdr finalizedHash n
            hcanon hcn (by omega))
        rw [if_pos hge]
  · have hsafe := verifySafe_false_of_not_ancestor db wf blockHash hdr safeHash
      hhdr hcanon h0 hb hnot
    unfold verifyForkchoiceHashes
    by_cases hf : finalizedHash ≠ 0 ∧ finalizedHash ≠ blockHash
    · rw [if_pos hf]
      cases hc : isCanonicalHash db finalizedHash with
      | false => simp
      | true =>
          obtain ⟨n, hrn, _⟩ := isCanonicalHash_spec db finalizedHash hc
          simp only [Bool.not_true, Bool.false_eq_true, if_false, hbn, hrn]
          split
          · rfl
          · exact hsafe
    · rw [if_neg hf]
      exact hsafe

theorem writeForkChoiceHashes_headerByHash (tx : ChainDB) (b s f : Hash) :
    (writeForkChoiceHashes tx b s f).headerByHash = tx.headerByHash := by
  unfold writeForkChoiceHashes
  split_ifs <;> rfl

theorem writeForkChoiceHashes_canonicalHash (tx : ChainDB) (b s f : Hash) :
    (writeForkChoiceHashes tx b s f).canonicalHash = tx.canonicalHash := by
  unfold writeForkChoiceHashes
  split_ifs <;> rfl

theorem writeForkChoiceHashes_hasTd (tx : ChainDB) (b s f : Hash) :
    (writeForkChoiceHashes tx b s f).hasTd = tx.hasTd := by
  unfold writeForkChoiceHashes
  split_ifs <;> rfl

theorem verify_congr (db₁ db₂ : ChainDB) (bh fh sh : Hash)
    (h1 : db₁.headerByHash = db₂.headerByHash)
    (h2 : db₁.canonicalHash = db₂.canonicalHash)
    (h3 : db₁.hasTd = db₂.hasTd) :
    verifyForkchoiceHashes db₁ bh fh sh = verifyForkchoiceHashes db₂ bh fh sh := by
  simp only [verifyForkchoiceHashes, verifySafeHash, isCanonicalHash, readHeaderNumber,
    h1, h2, h3]

/-- **C1 (amended)**: a forkchoice request whose `headHash` is canonical
(the no-op path) and whose non-zero `finalizedHash` (or `safeHash`) is
neither `headHash` itself nor a proper ancestor of `headHash` on the
well-formed canonical chain is answered with `InvalidForkchoice`, and the
committed canonical-chain pointers (head, safe, finalized and the
number-to-hash mapping) are unchanged. -/
theorem c1_invalid_forkchoice_no_mutation (db : ChainDB) (wf : CanonWF db)
    (walkFuel : Nat)
    (rum : ChainDB → List (Hash × Nat) → Nat → Except String ChainDB)
    (pr : ChainDB → Except String ChainDB)
    (hook : ChainDB → Except String Unit)
    (prune : ChainDB → Except String ChainDB)
    (blockHash safeHash finalizedHash : Hash) (hdr : Header)
    (hhdr : db.headerByHash blockHash = some hdr)
    (hcanon : db.canonicalHash hdr.number = some blockHash)
    (hviol :
      (finalizedHash ≠ 0 ∧ finalizedHash ≠ blockHash ∧
        ¬ ProperAncestor db finalizedHash blockHash) ∨
      (safeHash ≠ 0 ∧ safeHash ≠ blockHash ∧
        ¬ ProperAncestor db safeHash blockHash)) :
    updateForkChoice db true false walkFuel rum pr hook prune
        blockHash safeHash finalizedHash
      = (.receipt ⟨.InvalidForkchoice, 0, ""⟩, db) := by
  have hver : verifyForkchoiceHashes (writeForkChoiceHashes db blockHash safeHash finalizedHash)
      blockHash finalizedHash safeHash = some false := by
    rw [verify_congr _ db blockHash finalizedHash safeHash
      (writeForkChoiceHashes_headerByHash db blockHash safeHash finalizedHash)
      (writeForkChoiceHashes_canonicalHash db blockHash safeHash finalizedHash)
      (writeForkChoiceHashes_hasTd db blockHash safeHash finalizedHash)]
    exact verify_false_of_not_ancestor db wf blockHash hdr finalizedHash safeHash
      hhdr hcanon hviol
  unfold updateForkChoice
  simp only [Bool.not_true, Bool.false_eq_true, if_false, hhdr]
  rw [if_pos hcanon, hver]

/-- Closed witness for `c1_invalid_forkchoice_no_mutation`: a one-block
canonical chain (genesis hash 1) and a finalized hash 9 with no local
header: the request is answered `InvalidForkchoice` and the database is
returned unchanged. -/
theorem c1_invalid_forkchoice_no_mutation_witness :
    updateForkChoice
      { headerByHash := fun h => if h = 1 then some ⟨0, 2⟩ else none,
        canonicalHash := fun n => if n = 0 then some 1 else none,
        hasTd := fun _ _ => true, headBlockHash := 1, headHeaderHash := 1,
        forkchoiceHead := 1, forkchoiceSafe := 0, forkchoiceFinalized := 0 }
      true false 0 (fun tx _ _ => .ok tx) (fun tx => .ok tx) (fun _ => .ok ()) (fun tx => .ok tx) 1 0 9
      = (.receipt ⟨.InvalidForkchoice, 0, ""⟩,
         { headerByHash := fun h => if h = 1 then some ⟨0, 2⟩ else none,
           canonicalHash := fun n => if n = 0 then some 1 else none,
           hasTd := fun _ _ => true, headBlockHash := 1, headHeaderHash := 1,
           forkchoiceHead := 1, forkchoiceSafe := 0, forkchoiceFinalized := 0 }) := by
  refine c1_invalid_forkchoice_no_mutation _ ?_ 0 _ _ _ _ 1 0 9 ⟨0, 2⟩ (by simp) (by simp)
    (Or.inl ⟨by decide, by decide, ?_⟩)
  · constructor
    · intro n h hc
      simp only at hc
      split at hc
      · rename_i hn
        cases hc
        exact ⟨⟨0, 2⟩, by simp, by subst hn; rfl⟩
      · simp at hc
    · intro n h _
      rfl
    · intro n h hdr hc _
      simp only at hc
      split at hc
      · rename_i hn
        omega
      · simp at hc
  · rintro ⟨k, hk, he⟩
    rcases k with _ | (_ | k)
    · omega
    · simp [iterParent, parentAt] at he
    · simp [iterParent, parentAt] at he

/-- **C1 counterexample**: a request whose non-zero `finalizedHash` equals
`headHash` itself — hence is *not a proper ancestor* of `headHash` — is
answered `Success`, not `InvalidForkchoice` (the code exempts
`finalizedHash == blockHash` from the ancestry check). -/
theorem c1_counterexample_finalized_eq_head :
    (1 : Hash) ≠ 0 ∧
    ¬ ProperAncestor
      { headerByHash := fun h => if h = 1 then some ⟨0, 2⟩ else none,
        canonicalHash := fun n => if n = 0 then some 1 else none,
        hasTd := fun _ _ => true, headBlockHash := 1, headHeaderHash := 1,
        forkchoiceHead := 1, forkchoiceSafe := 0, forkchoiceFinalized := 0 } 1 1 ∧
    updateForkChoice
      { headerByHash := fun h => if h = 1 then some ⟨0, 2⟩ else none,
        canonicalHash := fun n => if n = 0 then some 1 else none,
        hasTd := fun _ _ => true, headBlockHash := 1, headHeaderHash := 1,
        forkchoiceHead := 1, forkchoiceSafe := 0, forkchoiceFinalized := 0 }
      true false 0 (fun tx _ _ => .ok tx) (fun tx => .ok tx) (fun _ => .ok ()) (fun tx => .ok tx) 1 0 1
      = (.receipt ⟨.Success, 1, ""⟩,
         { headerByHash := fun h => if h = 1 then some ⟨0, 2⟩ else none,
           canonicalHash := fun n => if n = 0 then some 1 else none,
           hasTd := fun _ _ => true, headBlockHash := 1, headHeaderHash := 1,
           forkchoiceHead := 1, forkchoiceSafe := 0, forkchoiceFinalized := 0 }) := by
  refine ⟨by decide, ?_, by rfl⟩
  rintro ⟨k, hk, he⟩
  rcases k with _ | (_ | k)
  · omega
  · simp [iterParent, parentAt] at he
  · simp [iterParent, parentAt] at he

/-- Helper: the unwind-and-replay tail obeys the commit discipline — every
rollback arm returns `db₀`, and the committed arms (post-commit hook
error, post-commit prune error, full success) all expose a successful
replay with head `bh`, a passed ancestry check and the truncated
(possibly pruned) transaction state. -/
theorem heavy_commit_key (db₀ : ChainDB) (wfuel : Nat)
    (rum₀ : ChainDB → List (Hash × Nat) → Nat → Except String ChainDB)
    (pr₀ : ChainDB → Except String ChainDB)
    (hook₀ : ChainDB → Except String Unit)
    (prune₀ : ChainDB → Except String ChainDB) (bh sh fh : Hash)
    (hdr : Header) (uw : Bool) (tx : ChainDB) :
    CommittedOnlyAfterReplay pr₀ prune₀ bh sh fh db₀
      (updateForkChoiceHeavy db₀ wfuel rum₀ pr₀ hook₀ prune₀ bh sh fh hdr uw tx).2 := by
  unfold CommittedOnlyAfterReplay updateForkChoiceHeavy
  dsimp only
  split
  · exact Or.inl rfl
  · exact Or.inl rfl
  · split
    · exact Or.inl rfl
    · rename_i tx2 hrum
      split
      · exact Or.inl rfl
      · rename_i tx4 hpr
        by_cases hh : tx4.headBlockHash ≠ bh
        · rw [if_pos hh]
          exact Or.inl rfl
        · rw [if_neg hh]
          simp only [not_not] at hh
          rw [hh]
          split
          · exact Or.inl rfl
          · exact Or.inl rfl
          · rename_i hver
            split
            · exact Or.inl rfl
            · rename_i hn hhn
              split
              · exact Or.inr ⟨tx2, tx4, hn, hpr, hh, hver, hhn, Or.inl rfl⟩
              · split
                · exact Or.inr ⟨tx2, tx4, hn, hpr, hh, hver, hhn, Or.inl rfl⟩
                · rename_i pruned hprune
                  exact Or.inr ⟨tx2, tx4, hn, hpr, hh, hver, hhn, Or.inr hprune⟩

/-- Helper: `updateForkChoice` obeys the commit discipline on every path
(busy, unknown head, canonical no-op, and the heavy tail). -/
theorem updateForkChoice_commit_key (db₀ : ChainDB) (sf io : Bool) (wfuel : Nat)
    (rum₀ : ChainDB → List (Hash × Nat) → Nat → Except String ChainDB)
    (pr₀ : ChainDB → Except String ChainDB)
    (hook₀ : ChainDB → Except String Unit)
    (prune₀ : ChainDB → Except String ChainDB) (bh sh fh : Hash) :
    CommittedOnlyAfterReplay pr₀ prune₀ bh sh fh db₀
      (updateForkChoice db₀ sf io wfuel rum₀ pr₀ hook₀ prune₀ bh sh fh).2 := by
  unfold updateForkChoice
  cases sf with
  | false =>
      refine Or.inl ?_
      cases io <;> rfl
  | true =>
      simp only [Bool.not_true, Bool.false_eq_true, if_false]
      split
      · exact Or.inl rfl
      · rename_i fcu _
        by_cases hcn : db₀.canonicalHash fcu.number = some bh
        · rw [if_pos hcn]
          split
          · exact Or.inl rfl
          · exact Or.inl rfl
          · split
            · exact Or.inl rfl
            · exact heavy_commit_key db₀ wfuel rum₀ pr₀ hook₀ prune₀ bh sh fh fcu _ _
        · rw [if_neg hcn]
          exact heavy_commit_key db₀ wfuel rum₀ pr₀ hook₀ prune₀ bh sh fh fcu _ _

/-- **C6**: when forward replay leaves a head hash different from the
requested one, the update reports `BadBlock` (with the mismatch noted in
`validationError`) and the transaction is rolled back, so the committed
database is unchanged; and — for any forkchoice call whatsoever — the
committed database changes only when the call reached `tx.Commit()`:
forward replay fully succeeded with the requested head and the
safe/finalized ancestry check passed, the committed state being the
truncated post-replay transaction (possibly further pruned). The
post-commit `hook.AfterRun`/`RunPrune` steps can still fail with a raw
error after the commit, so a changed database does not imply a `Success`
receipt. -/
theorem c6_badblock_rolls_back (db : ChainDB) (walkFuel : Nat)
    (rum : ChainDB → List (Hash × Nat) → Nat → Except String ChainDB)
    (pr : ChainDB → Except String ChainDB)
    (hook : ChainDB → Except String Unit)
    (prune : ChainDB → Except String ChainDB)
    (blockHash safeHash finalizedHash : Hash) (hdr : Header)
    (acc : List (Hash × Nat)) (unwindTo : Nat) (tx2 tx4 : ChainDB)
    (hhdr : db.headerByHash blockHash = some hdr)
    (hnc : ¬ db.canonicalHash hdr.number = some blockHash)
    (hwalk : walkBack db walkFuel hdr.parentHash (hdr.number - 1)
      [(blockHash, hdr.number)] = .found acc unwindTo)
    (hrum : rum db acc unwindTo = .ok tx2)
    (hpipe : pr { tx2 with headHeaderHash := blockHash } = .ok tx4)
    (hbad : tx4.headBlockHash ≠ blockHash) :
    updateForkChoice db true false walkFuel rum pr hook prune
        blockHash safeHash finalizedHash
      = (.receipt ⟨.BadBlock, tx4.headBlockHash, "headHash and blockHash mismatch"⟩, db) ∧
    ∀ (db₀ : ChainDB) (sf io : Bool) (wfuel : Nat)
      (rum₀ : ChainDB → List (Hash × Nat) → Nat → Except String ChainDB)
      (pr₀ : ChainDB → Except String ChainDB)
      (hook₀ : ChainDB → Except String Unit)
      (prune₀ : ChainDB → Except String ChainDB) (bh sh fh : Hash)
      (out : FcuOutcome) (db' : ChainDB),
      updateForkChoice db₀ sf io wfuel rum₀ pr₀ hook₀ prune₀ bh sh fh = (out, db') →
      CommittedOnlyAfterReplay pr₀ prune₀ bh sh fh db₀ db' := by
  constructor
  · unfold updateForkChoice
    simp only [Bool.not_true, Bool.false_eq_true, if_false, hhdr]
    rw [if_neg hnc]
    unfold updateForkChoiceHeavy
    simp only [Bool.false_and, Bool.and_false, Bool.not_false, if_true, Bool.false_eq_true,
      if_false]
    rw [hwalk]
    dsimp only
    rw [hrum]
    dsimp only
    rw [hpipe]
    dsimp only
    rw [if_pos hbad]
  · intro db₀ sf io wfuel rum₀ pr₀ hook₀ prune₀ bh sh fh out db' h
    have key := updateForkChoice_commit_key db₀ sf io wfuel rum₀ pr₀ hook₀ prune₀ bh sh fh
    rw [h] at key
    exact key

/-- Closed witness for `c6_badblock_rolls_back`: replay of the fork 5 over
the one-block canonical chain ends with head 7 ≠ 5, so the caller gets
`BadBlock` and the committed database is the original one. -/
theorem c6_badblock_rolls_back_witness :
    updateForkChoice
      { headerByHash := fun h => if h = 5 then some ⟨2, 4⟩ else none,
        canonicalHash := fun n => if n = 1 then some 4 else none,
        hasTd := fun _ _ => true, headBlockHash := 4, headHeaderHash := 4,
        forkchoiceHead := 4, forkchoiceSafe := 0, forkchoiceFinalized := 0 }
      true false 3 (fun tx _ _ => .ok tx)
      (fun _ => .ok { headerByHash := fun _ => none, canonicalHash := fun _ => none,
                      hasTd := fun _ _ => false, headBlockHash := 7, headHeaderHash := 0,
                      forkchoiceHead := 0, forkchoiceSafe := 0, forkchoiceFinalized := 0 })
      (fun _ => .ok ()) (fun tx => .ok tx)
      5 0 0
      = (.receipt ⟨.BadBlock, 7, "headHash and blockHash mismatch"⟩,
         { headerByHash := fun h => if h = 5 then some ⟨2, 4⟩ else none,
           canonicalHash := fun n => if n = 1 then some 4 else none,
           hasTd := fun _ _ => true, headBlockHash := 4, headHeaderHash := 4,
           forkchoiceHead := 4, forkchoiceSafe := 0, forkchoiceFinalized := 0 }) ∧
    ∀ (db₀ : ChainDB) (sf io : Bool) (wfuel : Nat)
      (rum₀ : ChainDB → List (Hash × Nat) → Nat → Except String ChainDB)
      (pr₀ : ChainDB → Except String ChainDB)
      (hook₀ : ChainDB → Except String Unit)
      (prune₀ : ChainDB → Except String ChainDB) (bh sh fh : Hash)
      (out : FcuOutcome) (db' : ChainDB),
      updateForkChoice db₀ sf io wfuel rum₀ pr₀ hook₀ prune₀ bh sh fh = (out, db') →
      CommittedOnlyAfterReplay pr₀ prune₀ bh sh fh db₀ db' :=
  c6_badblock_rolls_back
    { headerByHash := fun h => if h = 5 then some ⟨2, 4⟩ else none,
      canonicalHash := fun n => if n = 1 then some 4 else none,
      hasTd := fun _ _ => true, headBlockHash := 4, headHeaderHash := 4,
      forkchoiceHead := 4, forkchoiceSafe := 0, forkchoiceFinalized := 0 }
    3 (fun tx _ _ => .ok tx)
    (fun _ => .ok { headerByHash := fun _ => none, canonicalHash := fun _ => none,
                    hasTd := fun _ _ => false, headBlockHash := 7, headHeaderHash := 0,
                    forkchoiceHead := 0, forkchoiceSafe := 0, forkchoiceFinalized := 0 })
    (fun _ => .ok ()) (fun tx => .ok tx)
    5 0 0 ⟨2, 4⟩ [(5, 2)] 1
    { headerByHash := fun h => if h = 5 then some ⟨2, 4⟩ else none,
      canonicalHash := fun n => if n = 1 then some 4 else none,
      hasTd := fun _ _ => true, headBlockHash := 4, headHeaderHash := 4,
      forkchoiceHead := 4, forkchoiceSafe := 0, forkchoiceFinalized := 0 }
    { headerByHash := fun _ => none, canonicalHash := fun _ => none,
      hasTd := fun _ _ => false, headBlockHash := 7, headHeaderHash := 0,
      forkchoiceHead := 0, forkchoiceSafe := 0, forkchoiceFinalized := 0 }
    (by rfl) (by decide) (by rfl) (by rfl) (by rfl) (by decide)

/-- **C7 (amended)**: a backward walk that reaches a locally unavailable
parent header reports `MissingSegment` (with zero latest-valid hash and no
database change); an unknown `headHash` itself, by contrast, produces the
raw error "forkchoice: block %x not found or was marked invalid", not a
`MissingSegment` receipt (see the counterexample). -/
theorem c7_missing_parent_segment (db : ChainDB) (walkFuel : Nat)
    (rum : ChainDB → List (Hash × Nat) → Nat → Except String ChainDB)
    (pr : ChainDB → Except String ChainDB)
    (hook : ChainDB → Except String Unit)
    (prune : ChainDB → Except String ChainDB)
    (blockHash safeHash finalizedHash : Hash) (hdr : Header)
    (hhdr : db.headerByHash blockHash = some hdr)
    (hnc : ¬ db.canonicalHash hdr.number = some blockHash)
    (hwalk : walkBack db walkFuel hdr.parentHash (hdr.number - 1)
      [(blockHash, hdr.number)] = .missingParent) :
    updateForkChoice db true false walkFuel rum pr hook prune
        blockHash safeHash finalizedHash
      = (.receipt ⟨.MissingSegment, 0, ""⟩, db) := by
  unfold updateForkChoice
  simp only [Bool.not_true, Bool.false_eq_true, if_false, hhdr]
  rw [if_neg hnc]
  unfold updateForkChoiceHeavy
  simp only [Bool.false_and, Bool.and_false, Bool.not_false, if_true, Bool.false_eq_true,
    if_false]
  rw [hwalk]

/-- Closed witness for `c7_missing_parent_segment`: the parent header 4 of
the fork block 5 is not locally available, so the request is answered
`MissingSegment`. -/
theorem c7_missing_parent_segment_witness :
    updateForkChoice
      { headerByHash := fun h => if h = 5 then some ⟨2, 4⟩ else none,
        canonicalHash := fun _ => none,
        hasTd := fun _ _ => true, headBlockHash := 9, headHeaderHash := 9,
        forkchoiceHead := 9, forkchoiceSafe := 0, forkchoiceFinalized := 0 }
      true false 3 (fun tx _ _ => .ok tx) (fun tx => .ok tx)
      (fun _ => .ok ()) (fun tx => .ok tx) 5 0 0
      = (.receipt ⟨.MissingSegment, 0, ""⟩,
         { headerByHash := fun h => if h = 5 then some ⟨2, 4⟩ else none,
           canonicalHash := fun _ => none,
           hasTd := fun _ _ => true, headBlockHash := 9, headHeaderHash := 9,
           forkchoiceHead := 9, forkchoiceSafe := 0, forkchoiceFinalized := 0 }) :=
  c7_missing_parent_segment
    { headerByHash := fun h => if h = 5 then some ⟨2, 4⟩ else none,
      canonicalHash := fun _ => none,
      hasTd := fun _ _ => true, headBlockHash := 9, headHeaderHash := 9,
      forkchoiceHead := 9, forkchoiceSafe := 0, forkchoiceFinalized := 0 }
    3 (fun tx _ _ => .ok tx) (fun tx => .ok tx)
    (fun _ => .ok ()) (fun tx => .ok tx) 5 0 0 ⟨2, 4⟩
    (by rfl) (by decide) (by rfl)

/-- **C7 counterexample**: a forkchoice request whose `headHash` does not
resolve to a locally known header is answered with a raw error, not with a
`MissingSegment` receipt as the claim states. -/
theorem c7_counterexample_unknown_head :
    updateForkChoice
      { headerByHash := fun _ => none, canonicalHash := fun _ => none,
        hasTd := fun _ _ => false, headBlockHash := 0, headHeaderHash := 0,
        forkchoiceHead := 0, forkchoiceSafe := 0, forkchoiceFinalized := 0 }
      true false 0 (fun tx _ _ => .ok tx) (fun tx => .ok tx) (fun _ => .ok ()) (fun tx => .ok tx) 9 0 0
      = (.err "forkchoice: block not found or was marked invalid",
         { headerByHash := fun _ => none, canonicalHash := fun _ => none,
           hasTd := fun _ _ => false, headBlockHash := 0, headHeaderHash := 0,
           forkchoiceHead := 0, forkchoiceSafe := 0, forkchoiceFinalized := 0 }) := by
  rfl

/-- **C8 (amended)**: while an update is in flight (the single-slot
semaphore is held), a concurrently arriving update immediately receives —
without touching the database, without running any unwind/replay step and
without queuing — a `Busy` receipt with zero `latestValidHash` when the
chain config is not Optimism, but a raw error when it is; so callers do
not always receive an enumerated status. -/
theorem c8_busy_semantics (db : ChainDB) (walkFuel : Nat)
    (rum : ChainDB → List (Hash × Nat) → Nat → Except String ChainDB)
    (pr : ChainDB → Except String ChainDB)
    (hook : ChainDB → Except String Unit)
    (prune : ChainDB → Except String ChainDB) (bh sh fh : Hash) :
    updateForkChoice db false false walkFuel rum pr hook prune bh sh fh
      = (.receipt ⟨.Busy, 0, ""⟩, db) ∧
    updateForkChoice db false true walkFuel rum pr hook prune bh sh fh
      = (.err "cannot update forkchoice. execution service is busy", db) :=
  ⟨rfl, rfl⟩

/-- **C8 counterexample**: on an Optimism config, a request arriving while
the semaphore is held receives a raw error instead of a `Busy` receipt. -/
theorem c8_counterexample_optimism_busy_error :
    updateForkChoice
      { headerByHash := fun _ => none, canonicalHash := fun _ => none,
        hasTd := fun _ _ => false, headBlockHash := 0, headHeaderHash := 0,
        forkchoiceHead := 0, forkchoiceSafe := 0, forkchoiceFinalized := 0 }
      false true 0 (fun tx _ _ => .ok tx) (fun tx => .ok tx) (fun _ => .ok ()) (fun tx => .ok tx) 1 2 3
      = (.err "cannot update forkchoice. execution service is busy",
         { headerByHash := fun _ => none, canonicalHash := fun _ => none,
           hasTd := fun _ _ => false, headBlockHash := 0, headHeaderHash := 0,
           forkchoiceHead := 0, forkchoiceSafe := 0, forkchoiceFinalized := 0 }) := by
  rfl

/-! ## Proofs about the receipt storage round trip (C10) -/

theorem beBytesGo_congr : ∀ n fuel₁ fuel₂, n ≤ fuel₁ → n ≤ fuel₂ →
    beBytesGo fuel₁ n = beBytesGo fuel₂ n := by
  intro n
  induction n using Nat.strong_induction_on with
  | _ n ih =>
      intro fuel₁ fuel₂ h1 h2
      match n, fuel₁, fuel₂, h1, h2 with
      | 0, f₁, f₂, _, _ => simp [beBytesGo]
      | n + 1, f₁ + 1, f₂ + 1, h1, h2 =>
          simp only [beBytesGo]
          congr 1
          have hdivlt : (n + 1) / 256 < n + 1 := Nat.div_lt_self (by omega) (by omega)
          exact ih ((n + 1) / 256) hdivlt f₁ f₂ (by omega) (by omega)

theorem beBytes_zero : beBytes 0 = [] := rfl

theorem beBytes_succ (n : Nat) (hn : n ≠ 0) :
    beBytes n = beBytes (n / 256) ++ [n % 256] := by
  match n, hn with
  | n + 1, _ =>
      show beBytesGo (n + 1) (n + 1) = beBytesGo ((n + 1) / 256) ((n + 1) / 256) ++ _
      simp only [beBytesGo]
      congr 1
      have hdivlt : (n + 1) / 256 < n + 1 := Nat.div_lt_self (by omega) (by omega)
      exact beBytesGo_congr ((n + 1) / 256) n ((n + 1) / 256) (by omega) (by omega)

theorem beBytes_shape (n : Nat) (hn : n ≠ 0) : ∃ b l, beBytes n = b :: l ∧ b ≠ 0 := by
  induction n using Nat.strong_induction_on with
  | _ n ih =>
      rw [beBytes_succ n hn]
      by_cases h : n < 256
      · have hdiv : n / 256 = 0 := Nat.div_eq_of_lt h
        rw [hdiv]
        exact ⟨n % 256, [], by simp [beBytes_zero], by omega⟩
      · have hdiv : n / 256 ≠ 0 := by
          intro hc
          exact h (by omega)
        obtain ⟨b, l, hbl, hb⟩ := ih (n / 256)
          (Nat.div_lt_self (Nat.pos_of_ne_zero hn) (by omega)) hdiv
        exact ⟨b, l ++ [n % 256], by rw [hbl]; rfl, hb⟩

theorem fromBe_append_singleton (xs : Bytes) (b : Nat) :
    fromBe (xs ++ [b]) = fromBe xs * 256 + b := by
  unfold fromBe
  rw [List.foldl_append]
  rfl

theorem fromBe_beBytes (n : Nat) : fromBe (beBytes n) = n := by
  induction n using Nat.strong_induction_on with
  | _ n ih =>
      by_cases hn : n = 0
      · simp [hn, beBytes_zero, fromBe]
      · rw [beBytes_succ n hn, fromBe_append_singleton,
          ih (n / 256) (Nat.div_lt_self (Nat.pos_of_ne_zero hn) (by omega))]
        omega

theorem beBytes_length_le (k : Nat) : ∀ n, n < 256 ^ k → (beBytes n).length ≤ k := by
  induction k with
  | zero =>
      intro n h
      have : n = 0 := by simpa using h
      simp [this, beBytes_zero]
  | succ k ih =>
      intro n h
      by_cases hn : n = 0
      · simp [hn, beBytes_zero]
      · rw [beBytes_succ n hn]
        have hdiv : n / 256 < 256 ^ k := by
          rw [Nat.div_lt_iff_lt_mul (by omega)]
          calc n < 256 ^ (k + 1) := h
            _ = 256 ^ k * 256 := by ring
        have := ih (n / 256) hdiv
        simp only [List.length_append, List.length_cons, List.length_nil]
        omega

theorem beBytes_small (n : Nat) (h : n < 256) (hn : n ≠ 0) : beBytes n = [n] := by
  rw [beBytes_succ n hn, Nat.div_eq_of_lt h, Nat.mod_eq_of_lt h]
  simp [beBytes_zero]

theorem rlpString_ne_nil (p : Bytes) : rlpString p ≠ [] := by
  rcases p with _ | ⟨b, _ | ⟨c, t⟩⟩ <;>
    simp only [rlpString, rlpStrHdr] <;> split_ifs <;> simp

theorem rlpString_length_ge (p : Bytes) : p.length ≤ (rlpString p).length := by
  rcases p with _ | ⟨b, _ | ⟨c, t⟩⟩ <;>
    simp only [rlpString, rlpStrHdr] <;> split_ifs <;> simp <;> try omega

theorem rlpUint_ne_nil (n : Nat) : rlpUint n ≠ [] := rlpString_ne_nil _

theorem rlpListOf_length_ge (p : Bytes) : p.length ≤ (rlpListOf p).length := by
  unfold rlpListOf
  simp

theorem length_le_flatten_map {α : Type} (f : α → Bytes) (l : List α)
    (h : ∀ x ∈ l, f x ≠ []) : l.length ≤ ((l.map f).flatten).length := by
  induction l with
  | nil => simp
  | cons a l ih =>
      simp only [List.map_cons, List.flatten_cons, List.length_append, List.length_cons]
      have h1 : 1 ≤ (f a).length := by
        have := h a (by simp)
        cases hfa : f a with
        | nil => exact absurd hfa this
        | cons x xs => simp
      have h2 := ih (fun x hx => h x (by simp [hx]))
      omega

theorem mem_le_flatten_map {α : Type} (f : α → Bytes) (l : List α) (x : α) (hx : x ∈ l) :
    (f x).length ≤ ((l.map f).flatten).length := by
  induction l with
  | nil => simp at hx
  | cons a l ih =>
      simp only [List.map_cons, List.flatten_cons, List.length_append]
      rcases List.mem_cons.mp hx with rfl | hx'
      · omega
      · have := ih hx'
        omega

theorem parseRlpStr_rlpString (p rest : Bytes) (hp : p.length < U64) :
    parseRlpStr (rlpString p ++ rest) = some (p, rest) := by
  have h256 : U64 = 256 ^ 8 := by unfold U64; norm_num
  have hu : (U64 : Nat) = 18446744073709551616 := by unfold U64; norm_num
  rcases p with _ | ⟨b, _ | ⟨c, t⟩⟩
  · have heq : rlpString [] ++ rest = 0x80 :: rest := by
      simp [rlpString, rlpStrHdr]
    rw [heq]
    simp only [parseRlpStr]
    norm_num
  · by_cases hb : b < 0x80
    · have heq : rlpString [b] ++ rest = b :: rest := by
        simp [rlpString, hb]
      rw [heq]
      simp only [parseRlpStr]
      rw [if_pos hb]
    · have heq : rlpString [b] ++ rest = 0x81 :: b :: rest := by
        simp [rlpString, rlpStrHdr, hb]
      rw [heq]
      simp only [parseRlpStr]
      rw [if_neg (by omega), if_pos (by omega)]
      have h1 : (0x81 : Nat) - 0x80 = 1 := by norm_num
      simp only [h1, List.headD_cons]
      rw [if_neg (by rintro ⟨-, hlt⟩; omega)]
      rw [if_neg (by simp)]
      simp
  · set p := b :: c :: t with hpdef
    have hlen2 : 2 ≤ p.length := by simp [hpdef]
    by_cases hsmall : p.length < 56
    · have hsmall' : t.length + 1 + 1 < 56 := by simpa [hpdef] using hsmall
      have heq : rlpString p ++ rest = (0x80 + p.length) :: (p ++ rest) := by
        simp [hpdef, rlpString, rlpStrHdr, hsmall']
      rw [heq]
      simp only [parseRlpStr]
      rw [if_neg (by omega), if_pos (by omega)]
      have hn : 0x80 + p.length - 0x80 = p.length := by omega
      simp only [hn]
      rw [if_neg (by rintro ⟨h1, -⟩; omega)]
      rw [if_neg (by simp [List.length_append])]
      rw [List.take_left, List.drop_left]
    · obtain ⟨hb0, hl0, hshape, hb0ne⟩ := beBytes_shape p.length (by omega)
      have hL : (beBytes p.length).length ≤ 8 :=
        beBytes_length_le 8 p.length (by rw [← h256]; exact hp)
      have hL1 : 1 ≤ (beBytes p.length).length := by rw [hshape]; simp
      have hsmall' : ¬ t.length + 1 + 1 < 56 := by simpa [hpdef] using hsmall
      have heq : rlpString p ++ rest
          = (0xb7 + (beBytes p.length).length) :: (beBytes p.length ++ (p ++ rest)) := by
        simp [hpdef, rlpString, rlpStrHdr, hsmall']
      rw [heq]
      simp only [parseRlpStr]
      rw [if_neg (by omega), if_neg (by omega), if_pos (by omega)]
      have hll : 0xb7 + (beBytes p.length).length - 0xb7 = (beBytes p.length).length := by
        omega
      simp only [hll]
      rw [if_neg (by simp [List.length_append])]
      rw [List.take_left, List.drop_left, fromBe_beBytes]
      rw [if_neg (by
        push_neg
        refine ⟨?_, by omega⟩
        rw [hshape]
        simpa using hb0ne)]
      rw [if_neg (by simp [List.length_append])]
      rw [List.take_left, List.drop_left]

theorem parseRlpList_rlpListOf (p rest : Bytes) (hp : p.length < U64) :
    parseRlpList (rlpListOf p ++ rest) = some (p, rest) := by
  have h256 : U64 = 256 ^ 8 := by unfold U64; norm_num
  have hu : (U64 : Nat) = 18446744073709551616 := by unfold U64; norm_num
  by_cases hsmall : p.length < 56
  · have heq : rlpListOf p ++ rest = (0xc0 + p.length) :: (p ++ rest) := by
      simp [rlpListOf, rlpListHdr, hsmall]
    rw [heq]
    simp only [parseRlpList]
    rw [if_neg (by omega), if_pos (by omega)]
    have hn : 0xc0 + p.length - 0xc0 = p.length := by omega
    simp only [hn]
    rw [if_neg (by simp [List.length_append])]
    rw [List.take_left, List.drop_left]
  · obtain ⟨hb0, hl0, hshape, hb0ne⟩ := beBytes_shape p.length (by omega)
    have hL : (beBytes p.length).length ≤ 8 :=
      beBytes_length_le 8 p.length (by rw [← h256]; exact hp)
    have hL1 : 1 ≤ (beBytes p.length).length := by rw [hshape]; simp
    have heq : rlpListOf p ++ rest
        = (0xf7 + (beBytes p.length).length) :: (beBytes p.length ++ (p ++ rest)) := by
      simp [rlpListOf, rlpListHdr, hsmall]
    rw [heq]
    simp only [parseRlpList]
    rw [if_neg (by omega), if_neg (by omega)]
    have hll : 0xf7 + (beBytes p.length).length - 0xf7 = (beBytes p.length).length := by
      omega
    simp only [hll]
    rw [if_neg (by simp [List.length_append])]
    rw [List.take_left, List.drop_left, fromBe_beBytes]
    rw [if_neg (by
      push_neg
      refine ⟨?_, by omega⟩
      rw [hshape]
      simpa using hb0ne)]
    rw [if_neg (by simp [List.length_append])]
    rw [List.take_left, List.drop_left]

theorem parseRlpUint_rlpUint (n : Nat) (rest : Bytes) (hn : n < U64) :
    parseRlpUint (rlpUint n ++ rest) = some (n, rest) := by
  have h256 : U64 = 256 ^ 8 := by unfold U64; norm_num
  have hL : (beBytes n).length ≤ 8 := beBytes_length_le 8 n (by rw [← h256]; exact hn)
  have hstr : parseRlpStr (rlpString (beBytes n) ++ rest) = some (beBytes n, rest) := by
    refine parseRlpStr_rlpString (beBytes n) rest ?_
    have hu : (U64 : Nat) = 18446744073709551616 := by unfold U64; norm_num
    omega
  unfold parseRlpUint rlpUint
  rw [hstr]
  show (if 8 < (beBytes n).length then none
        else if (beBytes n).headD 1 = 0 then none else some (fromBe (beBytes n), rest))
      = some (n, rest)
  rw [if_neg (by omega)]
  by_cases h0 : n = 0
  · subst h0
    simp [beBytes_zero, fromBe]
  · obtain ⟨b0, l0, hshape, hb0ne⟩ := beBytes_shape n h0
    rw [if_neg (by rw [hshape]; simpa using hb0ne)]
    rw [fromBe_beBytes]

theorem parseTopics_flatten (topics : List Bytes)
    (hwf : ∀ t ∈ topics, t.length = 32) :
    ∀ fuel, topics.length ≤ fuel →
      parseTopics fuel ((topics.map rlpString).flatten) = some topics := by
  induction topics with
  | nil =>
      intro fuel _
      simp [parseTopics]
  | cons t ts ih =>
      intro fuel hfuel
      have ht : t.length = 32 := hwf t (by simp)
      have hflat : ((t :: ts).map rlpString).flatten
          = rlpString t ++ ((ts.map rlpString).flatten) := by simp
      obtain ⟨x, xs, hx⟩ := List.exists_cons_of_ne_nil (rlpString_ne_nil t)
      match fuel with
      | 0 => simp at hfuel
      | fuel + 1 =>
          rw [hflat, hx, List.cons_append]
          have hps : parseRlpStr (x :: (xs ++ (ts.map rlpString).flatten))
              = some (t, (ts.map rlpString).flatten) := by
            rw [← List.cons_append, ← hx]
            exact parseRlpStr_rlpString t _ (by rw [ht]; norm_num [U64])
          show (match parseRlpStr (x :: (xs ++ (ts.map rlpString).flatten)) with
            | none => none
            | some (tp, rest) =>
                if tp.length = 32 then (parseTopics fuel rest).map (tp :: ·) else none)
            = some (t :: ts)
          rw [hps]
          show (if t.length = 32
              then (parseTopics fuel ((ts.map rlpString).flatten)).map (t :: ·) else none)
            = some (t :: ts)
          rw [if_pos ht]
          rw [ih (fun u hu => hwf u (by simp [hu])) fuel (by simpa using hfuel)]
          rfl

theorem rlpListOf_ne_nil (p : Bytes) : rlpListOf p ≠ [] := by
  unfold rlpListOf rlpListHdr
  split <;> simp

theorem parseLog_encode (l : Log) (rest : Bytes)
    (haddr : l.address.length = 20)
    (htop : ∀ t ∈ l.topics, t.length = 32)
    (hsz : (rlpString l.address ++ rlpListOf ((l.topics.map rlpString).flatten)
        ++ rlpString l.data).length < U64) :
    parseLog (LogForStorage.EncodeRLP l ++ rest) = some (l.stored, rest) := by
  have hu : (U64 : Nat) = 18446744073709551616 := by unfold U64; norm_num
  have hflatB : ((l.topics.map rlpString).flatten).length
      ≤ (rlpListOf ((l.topics.map rlpString).flatten)).length := rlpListOf_length_ge _
  have hdataC : l.data.length ≤ (rlpString l.data).length := rlpString_length_ge _
  have hszs : (rlpString l.address).length
      + ((rlpListOf ((l.topics.map rlpString).flatten)).length
      + (rlpString l.data).length) < U64 := by
    simpa [List.length_append] using hsz
  unfold parseLog LogForStorage.EncodeRLP
  rw [parseRlpList_rlpListOf _ rest (by simpa [List.length_append] using hsz)]
  dsimp only
  rw [List.append_assoc,
    parseRlpStr_rlpString l.address _ (by rw [haddr]; omega)]
  dsimp only
  rw [if_neg (by rw [haddr]; trivial)]
  rw [parseRlpList_rlpListOf _ _ (by omega)]
  dsimp only
  rw [parseTopics_flatten l.topics htop _
    (length_le_flatten_map rlpString l.topics (fun t _ => rlpString_ne_nil t))]
  dsimp only
  rw [show rlpString l.data = rlpString l.data ++ [] from by simp,
    parseRlpStr_rlpString l.data [] (by omega)]
  dsimp only
  rfl

theorem parseLogList_encode (logs : List Log)
    (hwf : ∀ l ∈ logs, l.address.length = 20 ∧ ∀ t ∈ l.topics, t.length = 32)
    (hsz : ∀ l ∈ logs, (rlpString l.address
      ++ rlpListOf ((l.topics.map rlpString).flatten) ++ rlpString l.data).length < U64) :
    ∀ fuel, logs.length ≤ fuel →
      parseLogList fuel ((logs.map LogForStorage.EncodeRLP).flatten)
        = some (logs.map Log.stored) := by
  induction logs with
  | nil =>
      intro fuel _
      simp [parseLogList]
  | cons l ls ih =>
      intro fuel hfuel
      have hflat : ((l :: ls).map LogForStorage.EncodeRLP).flatten
          = LogForStorage.EncodeRLP l ++ ((ls.map LogForStorage.EncodeRLP).flatten) := by
        simp
      obtain ⟨x, xs, hx⟩ := List.exists_cons_of_ne_nil
        (show LogForStorage.EncodeRLP l ≠ [] from rlpListOf_ne_nil _)
      match fuel with
      | 0 => simp at hfuel
      | fuel + 1 =>
          rw [hflat, hx, List.cons_append]
          have hpl : parseLog (x :: (xs ++ ((ls.map LogForStorage.EncodeRLP).flatten)))
              = some (l.stored, (ls.map LogForStorage.EncodeRLP).flatten) := by
            rw [← List.cons_append, ← hx]
            exact parseLog_encode l _ (hwf l (by simp)).1 (hwf l (by simp)).2
              (hsz l (by simp))
          show (match parseLog (x :: (xs ++ ((ls.map LogForStorage.EncodeRLP).flatten))) with
            | none => none
            | some (lg, rest) => (parseLogList fuel rest).map (lg :: ·))
            = some ((l :: ls).map Log.stored)
          rw [hpl]
          dsimp only
          rw [ih (fun u hu => hwf u (by simp [hu])) (fun u hu => hsz u (by simp [hu]))
            fuel (by simpa using hfuel)]
          rfl

theorem parseOptionalNonces_tail (r : Receipt)
    (hdn : r.depositNonce.getD 0 < U64) (hdv : r.depositReceiptVersion.getD 0 < U64)
    (hdep : r.depositReceiptVersion = none ∨ r.depositNonce ≠ none) :
    parseOptionalNonces (storedOptTail r)
      = some (r.depositNonce, r.depositReceiptVersion) := by
  rcases hv : r.depositReceiptVersion with _ | v
  · rcases hn : r.depositNonce with _ | n
    · unfold storedOptTail
      rw [hv, hn]
      simp [parseOptionalNonces]
    · unfold storedOptTail
      rw [hv, hn]
      dsimp only
      unfold parseOptionalNonces
      rw [if_neg (rlpUint_ne_nil n)]
      have hpn : parseRlpUint (rlpUint n) = some (n, []) := by
        have h := parseRlpUint_rlpUint n [] (by rw [hn] at hdn; simpa using hdn)
        simpa using h
      rw [hpn]
      simp
  · rcases hdep with h | h
    · rw [hv] at h
      simp at h
    · rcases hn : r.depositNonce with _ | n
      · exact absurd hn h
      · unfold storedOptTail
        rw [hv, hn]
        dsimp only
        unfold parseOptionalNonces
        rw [if_neg (by
          simp only [List.append_eq_nil]
          rintro ⟨h1, -⟩
          exact rlpUint_ne_nil n h1)]
        rw [show (Option.getD (some n) 0) = n from rfl]
        rw [parseRlpUint_rlpUint n (rlpUint v) (by rw [hn] at hdn; simpa using hdn)]
        dsimp only
        rw [if_neg (rlpUint_ne_nil v)]
        have hpv : parseRlpUint (rlpUint v) = some (v, []) := by
          have hh := parseRlpUint_rlpUint v [] (by rw [hv] at hdv; simpa using hdv)
          simpa using hh
        rw [hpv]
        simp

theorem setStatus_statusEncoding (r : Receipt)
    (hstat : (r.postState = []
        ∧ (r.status = ReceiptStatusFailed ∨ r.status = ReceiptStatusSuccessful))
      ∨ (r.postState.length = 32 ∧ r.status = 0)) :
    Receipt.setStatus {} r.statusEncoding
      = .ok { status := r.status, postState := r.postState } := by
  rcases hstat with ⟨hps, hs | hs⟩ | ⟨hlen, hs⟩
  · have henc : r.statusEncoding = receiptStatusFailedRLP := by
      unfold Receipt.statusEncoding
      rw [hps, hs]
      simp
    rw [henc, hps, hs]
    simp [Receipt.setStatus, receiptStatusFailedRLP, receiptStatusSuccessfulRLP,
      ReceiptStatusFailed]
  · have henc : r.statusEncoding = receiptStatusSuccessfulRLP := by
      unfold Receipt.statusEncoding
      rw [hps, hs]
      simp [ReceiptStatusFailed, ReceiptStatusSuccessful]
    rw [henc, hps, hs]
    simp [Receipt.setStatus, ReceiptStatusSuccessful]
  · have henc : r.statusEncoding = r.postState := by
      unfold Receipt.statusEncoding
      rw [if_neg (by omega)]
    rw [henc, hs]
    unfold Receipt.setStatus
    rw [if_neg (by
      intro hc
      rw [hc] at hlen
      simp [receiptStatusSuccessfulRLP] at hlen)]
    rw [if_neg (by
      intro hc
      rw [hc] at hlen
      simp [receiptStatusFailedRLP] at hlen)]
    rw [if_pos hlen]

/-- **C10 (amended)**: for every receipt whose `Status` matches its status
encoding (`Status ∈ {failed, successful}` when `PostState` is empty, or a
32-byte `PostState` with zero `Status`), whose logs carry 20-byte
addresses and 32-byte topics, whose `DepositReceiptVersion` is only set
together with `DepositNonce` (as the state-transition code guarantees),
and whose `uint64` fields and encoded size are in range:
`ReceiptForStorage.EncodeRLP` followed by `decodeStoredReceiptRLP`
succeeds and reproduces `Status`/`PostState`, `CumulativeGasUsed`, the
logs' stored fields (address, topics, data — derived log fields are not
stored), `DepositNonce` and `DepositReceiptVersion`; consequently
`ReceiptForStorage.DecodeRLP` answers with the current-format decoding and
never consults the v3/v4 legacy fallbacks. -/
theorem c10_storage_roundtrip (r : Receipt)
    (hstat : (r.postState = []
        ∧ (r.status = ReceiptStatusFailed ∨ r.status = ReceiptStatusSuccessful))
      ∨ (r.postState.length = 32 ∧ r.status = 0))
    (hcum : r.cumulativeGasUsed < U64)
    (hlogs : ∀ l ∈ r.logs, l.address.length = 20 ∧ ∀ t ∈ l.topics, t.length = 32)
    (hdn : r.depositNonce.getD 0 < U64)
    (hdv : r.depositReceiptVersion.getD 0 < U64)
    (hdep : r.depositReceiptVersion = none ∨ r.depositNonce ≠ none)
    (hsize : (ReceiptForStorage.EncodeRLP r).length < U64) :
    decodeStoredReceiptRLP (ReceiptForStorage.EncodeRLP r)
      = some { status := r.status, postState := r.postState,
               cumulativeGasUsed := r.cumulativeGasUsed,
               logs := r.logs.map Log.stored,
               depositNonce := r.depositNonce,
               depositReceiptVersion := r.depositReceiptVersion } ∧
    ∀ fallback, ReceiptForStorage.DecodeRLP fallback (ReceiptForStorage.EncodeRLP r)
      = decodeStoredReceiptRLP (ReceiptForStorage.EncodeRLP r) := by
  have hu : (U64 : Nat) = 18446744073709551616 := by unfold U64; norm_num
  have hpay : (storedReceiptPayload r).length < U64 :=
    lt_of_le_of_lt (rlpListOf_length_ge _) hsize
  have hparts : (rlpString r.statusEncoding).length
      + ((rlpUint r.cumulativeGasUsed).length
      + ((rlpListOf ((r.logs.map LogForStorage.EncodeRLP).flatten)).length
      + (storedOptTail r).length)) < U64 := by
    simpa [storedReceiptPayload, List.length_append] using hpay
  have hfl1 : ((r.logs.map LogForStorage.EncodeRLP).flatten).length
      ≤ (rlpListOf ((r.logs.map LogForStorage.EncodeRLP).flatten)).length :=
    rlpListOf_length_ge _
  have hflatlt : ((r.logs.map LogForStorage.EncodeRLP).flatten).length < U64 := by omega
  have hlogsz : ∀ l ∈ r.logs, (rlpString l.address
      ++ rlpListOf ((l.topics.map rlpString).flatten) ++ rlpString l.data).length < U64 := by
    intro l hl
    have h2 : (LogForStorage.EncodeRLP l).length
        ≤ ((r.logs.map LogForStorage.EncodeRLP).flatten).length :=
      mem_le_flatten_map _ _ l hl
    have h3 : (rlpString l.address ++ rlpListOf ((l.topics.map rlpString).flatten)
        ++ rlpString l.data).length ≤ (LogForStorage.EncodeRLP l).length :=
      rlpListOf_length_ge _
    omega
  have hse : r.statusEncoding.length ≤ 32 := by
    unfold Receipt.statusEncoding
    rcases hstat with ⟨hps, -⟩ | ⟨hlen, -⟩
    · rw [hps]
      simp only [List.length_nil, reduceIte, receiptStatusFailedRLP,
        receiptStatusSuccessfulRLP]
      split <;> simp
    · rw [if_neg (by omega)]
      omega
  have hdec : decodeStoredReceiptRLP (ReceiptForStorage.EncodeRLP r)
      = some { status := r.status, postState := r.postState,
               cumulativeGasUsed := r.cumulativeGasUsed,
               logs := r.logs.map Log.stored,
               depositNonce := r.depositNonce,
               depositReceiptVersion := r.depositReceiptVersion } := by
    unfold decodeStoredReceiptRLP ReceiptForStorage.EncodeRLP
    rw [show rlpListOf (storedReceiptPayload r)
        = rlpListOf (storedReceiptPayload r) ++ [] from by simp]
    rw [parseRlpList_rlpListOf _ [] hpay]
    dsimp only
    rw [if_neg (by simp)]
    unfold storedReceiptPayload
    simp only [List.append_assoc]
    rw [parseRlpStr_rlpString r.statusEncoding _ (by omega)]
    dsimp only
    rw [parseRlpUint_rlpUint r.cumulativeGasUsed _ hcum]
    dsimp only
    rw [parseRlpList_rlpListOf _ _ hflatlt]
    dsimp only
    rw [parseLogList_encode r.logs hlogs hlogsz _
      (length_le_flatten_map LogForStorage.EncodeRLP r.logs
        (fun l _ => rlpListOf_ne_nil _))]
    dsimp only
    rw [parseOptionalNonces_tail r hdn hdv hdep]
    dsimp only
    rw [setStatus_statusEncoding r hstat]
  refine ⟨hdec, ?_⟩
  intro fallback
  unfold ReceiptForStorage.DecodeRLP
  rw [hdec]

/-- Closed witness for `c10_storage_roundtrip`: a successful deposit
receipt with one log; the storage encoding decodes back to the same
stored fields. -/
theorem c10_storage_roundtrip_witness :
    decodeStoredReceiptRLP (ReceiptForStorage.EncodeRLP
      { status := 1, cumulativeGasUsed := 21000,
        logs := [{ address := List.replicate 20 2, topics := [List.replicate 32 7],
                   data := [1, 2, 3] }],
        depositNonce := some 3, depositReceiptVersion := some 1 })
      = some { status := 1, postState := [],
               cumulativeGasUsed := 21000,
               logs := [{ address := List.replicate 20 2, topics := [List.replicate 32 7],
                          data := [1, 2, 3] }],
               depositNonce := some 3, depositReceiptVersion := some 1 } ∧
    ∀ fallback, ReceiptForStorage.DecodeRLP fallback (ReceiptForStorage.EncodeRLP
      { status := 1, cumulativeGasUsed := 21000,
        logs := [{ address := List.replicate 20 2, topics := [List.replicate 32 7],
                   data := [1, 2, 3] }],
        depositNonce := some 3, depositReceiptVersion := some 1 })
      = decodeStoredReceiptRLP (ReceiptForStorage.EncodeRLP
      { status := 1, cumulativeGasUsed := 21000,
        logs := [{ address := List.replicate 20 2, topics := [List.replicate 32 7],
                   data := [1, 2, 3] }],
        depositNonce := some 3, depositReceiptVersion := some 1 }) :=
  c10_storage_roundtrip
    { status := 1, cumulativeGasUsed := 21000,
      logs := [{ address := List.replicate 20 2, topics := [List.replicate 32 7],
                 data := [1, 2, 3] }],
      depositNonce := some 3, depositReceiptVersion := some 1 }
    (Or.inl ⟨rfl, Or.inr rfl⟩) (by decide) (by decide) (by decide) (by decide)
    (Or.inr (by decide)) (by decide)

/-- **C10 counterexample**: a receipt with empty `PostState` and
`Status = 2` (not a canonical status) and a log carrying a derived
`blockNumber`: the encode-decode round trip yields `Status = 1` and a log
with `blockNumber = 0`, not the original receipt. -/
theorem c10_counterexample_status_not_preserved :
    (decodeStoredReceiptRLP (ReceiptForStorage.EncodeRLP
        { status := 2,
          logs := [{ address := List.replicate 20 1, topics := [], data := [],
                     blockNumber := 5 }] })).map
        (fun x => (x.status, x.logs.map (fun l => l.blockNumber)))
      = some (1, [0]) ∧
    (2 : Nat) ≠ 1 ∧ (5 : Nat) ≠ 0 := by
  exact ⟨by decide, by decide, by decide⟩
